/-
Verification of the aggregation core of the NYC Contract Awards Explorer
(js/api.js, js/filters.js, js/matrix.js, js/sankey.js, js/app.js, js/utils.js).

The JavaScript source is shallowly embedded:
* JS numbers are modelled as exact rationals (Rat); `x || 0` on a number is
  the identity except on NaN, which the normalizer has already removed.
* A JS `Map` built by repeated `set` is modelled as an insertion-ordered
  association list: updating an existing key keeps its position, a new key is
  appended.  `Array.from(map.entries())` / `.values()` / `.keys()` is then the
  list itself, in insertion order, exactly as in JS.
* `Array.prototype.sort(cmp)` (stable since ES2019) is modelled as
  `List.insertionSort r` with `r a b := cmp a b ≤ 0`; insertion sort is stable,
  so it computes the same list as any stable comparison sort.
* `String.prototype.localeCompare` is modelled as code-point comparison, and
  `toLowerCase` as a per-character code-point lowering; all consistency statements are
  independent of this choice because every code path uses the same comparator.
* `parseFloat` is modelled on optional sign + decimal digits with an optional
  fractional part (exponents and Infinity are not modelled); an unparseable
  string is `none` (JS `NaN`).
* `Date` parsing is omitted: the parsed date fields are consumed only by the
  excluded rendering layer and no claim mentions them.
-/
import Mathlib

set_option maxHeartbeats 1600000
set_option maxRecDepth 10000

unseal Rat.add Rat.mul Rat.sub Rat.inv Rat.ofScientific

/-! ## JS Map and string primitives -/

/-- JS `Map.prototype.get`, on an insertion-ordered association list. -/
def jsGet {κ β : Type} [DecidableEq κ] : List (κ × β) → κ → Option β
  | [], _ => none
  | (k0, v) :: rest, k => if k0 = k then some v else jsGet rest k

/-- The `if (!m.has(k)) m.set(k, d); f(m.get(k))` update pattern used by every
aggregation pass: update the existing slot in place, or append a fresh one. -/
def jsUpd {κ β : Type} [DecidableEq κ] : List (κ × β) → κ → β → (β → β) → List (κ × β)
  | [], k, d, f => [(k, f d)]
  | (k0, v) :: rest, k, d, f =>
    if k0 = k then (k0, f v) :: rest else (k0, v) :: jsUpd rest k d f

/-- Truthiness-based defaulting `x || d` for a JS string that may be
`undefined`/`null` (`none`) or empty (both falsy). -/
def jsOr (x : Option String) (d : String) : String :=
  match x with
  | none => d
  | some s => if s = "" then d else s

/-- Does the character list `l` start with `q`? -/
def startsWithList : List Char → List Char → Bool
  | _, [] => true
  | [], _ :: _ => false
  | c :: l, d :: q => c = d && startsWithList l q

/-- Does the character list `l` contain `q` as a contiguous run? -/
def containsList : List Char → List Char → Bool
  | l, q =>
    startsWithList l q ||
      match l with
      | [] => false
      | _ :: t => containsList t q

/-- JS `String.prototype.includes`. -/
def strIncludes (s q : String) : Bool :=
  containsList s.data q.data

/-- Model of `String.prototype.localeCompare`: code-point order. -/
def localeCompare (a b : String) : Int :=
  if a < b then -1 else if b < a then 1 else 0

/-! ## Record normalization (js/api.js processData, js/utils.js) -/

/-- One raw row of the SODA response, restricted to the fields the core reads;
every field arrives as an optional string. -/
structure RawRecord where
  vendor_name : Option String
  agency_name : Option String
  contract_amount : Option String
  short_title : Option String
  other_info_1 : Option String
  other_info_2 : Option String
  other_info_3 : Option String
  start_date : Option String
  end_date : Option String
deriving DecidableEq, Repr

/-- A normalized contract record, as produced by `API.processData`. -/
structure Record where
  vendor_name : Option String
  agency_name : Option String
  contract_amount : Rat
  short_title : Option String
  additional_info : String
  start_date : Option String
  end_date : Option String
deriving DecidableEq, Repr

/-- Numeric value of a digit run. -/
def digitsToNat (l : List Char) : Nat :=
  l.foldl (fun acc c => acc * 10 + (c.toNat - 48)) 0

/-- Unsigned part of `parseFloat`: digits with an optional fractional part. -/
def jsParseFloatCore (cs : List Char) : Option Rat :=
  let intPart := cs.takeWhile Char.isDigit
  let rest := cs.drop intPart.length
  let fracPart :=
    match rest with
    | c :: r => if c = '.' then r.takeWhile Char.isDigit else []
    | [] => []
  if intPart.isEmpty && fracPart.isEmpty then none
  else some ((digitsToNat intPart : Rat) + (digitsToNat fracPart : Rat) / (10 : Rat) ^ fracPart.length)

/-- JS `parseFloat` on a decimal literal (`none` models `NaN`). -/
def jsParseFloat (s : String) : Option Rat :=
  let cs := s.data.dropWhile (fun c => c = ' ' || c = '\t' || c = '\n' || c = '\r')
  match cs with
  | c :: rest =>
    if c = '-' then (jsParseFloatCore rest).map (fun q => -q)
    else if c = '+' then jsParseFloatCore rest
    else jsParseFloatCore cs
  | [] => none

/-- `parseFloat(record.contract_amount) || 0`: an absent field parses as `NaN`,
and both `NaN` and a parsed `0` collapse to `0`. -/
def jsToNumber (x : Option String) : Rat :=
  match x with
  | none => 0
  | some s => (jsParseFloat s).getD 0

/-- JS `toLowerCase` on the strings at hand: per-character code-point
lowering. -/
def jsToLower (s : String) : String :=
  ⟨s.data.map Char.toLower⟩

namespace Utils

/-- `Utils.concatenateOtherInfo`: keep the other-info fields that are non-blank
after trimming, join the surviving originals with a literal separator. -/
def concatenateOtherInfo (r : RawRecord) : String :=
  let parts := ([r.other_info_1, r.other_info_2, r.other_info_3].filterMap id).filter
    (fun s => !(s.trim = ""))
  String.intercalate " | " parts

/-- `Utils.matchesSearch`. -/
def matchesSearch (text : Option String) (query : String) : Bool :=
  if query = "" then true
  else
    match text with
    | none => false
    | some s => if s = "" then false else strIncludes (jsToLower s) (jsToLower query)

end Utils

namespace API

/-- `API.processData` on one row. -/
def processRecord (r : RawRecord) : Record :=
  { vendor_name := r.vendor_name
    agency_name := r.agency_name
    contract_amount := jsToNumber r.contract_amount
    short_title := r.short_title
    additional_info := Utils.concatenateOtherInfo r
    start_date := r.start_date
    end_date := r.end_date }

/-- `API.processData`. -/
def processData (data : List RawRecord) : List Record :=
  data.map processRecord

end API

/-- `record.vendor_name || 'Unknown Vendor'`. -/
def vendorOf (r : Record) : String :=
  jsOr r.vendor_name "Unknown Vendor"

/-- `record.agency_name || 'Unknown Agency'`. -/
def agencyOf (r : Record) : String :=
  jsOr r.agency_name "Unknown Agency"

/-- `record.contract_amount || 0`; on a normalized (never-NaN) number this is
the identity, since `0 || 0 = 0`. -/
def amountOf (r : Record) : Rat :=
  r.contract_amount

/-! ## Aggregation (js/api.js aggregateForSankey / aggregateForMatrix) -/

/-- One `linkMap` bucket of `aggregateForSankey`. -/
structure LinkData where
  vendor : String
  agency : String
  amount : Rat
  count : Nat
  contracts : List Record
deriving DecidableEq, Repr

/-- One `matrixMap` cell of `aggregateForMatrix`. -/
structure Cell where
  amount : Rat
  count : Nat
deriving DecidableEq, Repr

/-- `m.set(k, (m.get(k) || 0) + a)`. -/
def addRat (m : List (String × Rat)) (k : String) (a : Rat) : List (String × Rat) :=
  jsUpd m k 0 (fun v => v + a)

/-- `m.set(k, (m.get(k) || 0) + 1)`. -/
def addNat (m : List (String × Nat)) (k : String) : List (String × Nat) :=
  jsUpd m k 0 (fun v => v + 1)

/-- The bucket key template literal: vendor + "|||" + agency. -/
def pairKey (vendor agency : String) : String :=
  vendor ++ "|||" ++ agency

/-- One `linkMap` update of `aggregateForSankey`. -/
def addLink (m : List (String × LinkData)) (vendor agency : String) (amount : Rat)
    (r : Record) : List (String × LinkData) :=
  jsUpd m (pairKey vendor agency) ⟨vendor, agency, 0, 0, []⟩
    (fun l => ⟨l.vendor, l.agency, l.amount + amount, l.count + 1, l.contracts ++ [r]⟩)

/-- One `matrixMap` update of `aggregateForMatrix`. -/
def addCell (m : List (String × Cell)) (vendor agency : String) (amount : Rat) :
    List (String × Cell) :=
  jsUpd m (pairKey vendor agency) ⟨0, 0⟩ (fun c => ⟨c.amount + amount, c.count + 1⟩)

/-- Accumulator of the single `data.forEach` pass of `aggregateForSankey`. -/
structure SAcc where
  vt : List (String × Rat)
  ag : List (String × Rat)
  lm : List (String × LinkData)
deriving Repr

/-- The body of the `data.forEach` of `aggregateForSankey`. -/
def sankeyStep (acc : SAcc) (r : Record) : SAcc :=
  ⟨addRat acc.vt (vendorOf r) (amountOf r),
    addRat acc.ag (agencyOf r) (amountOf r),
    addLink acc.lm (vendorOf r) (agencyOf r) (amountOf r) r⟩

/-- The grouping pass of `aggregateForSankey`. -/
def sankeyAccum (data : List Record) : SAcc :=
  data.foldl sankeyStep ⟨[], [], []⟩

/-- Accumulator of the single `data.forEach` pass of `aggregateForMatrix`. -/
structure MAcc where
  vtm : List (String × Rat)
  agm : List (String × Rat)
  vcm : List (String × Nat)
  acm : List (String × Nat)
  mm : List (String × Cell)
deriving Repr

/-- The body of the `data.forEach` of `aggregateForMatrix`. -/
def matrixStep (acc : MAcc) (r : Record) : MAcc :=
  ⟨addRat acc.vtm (vendorOf r) (amountOf r),
    addRat acc.agm (agencyOf r) (amountOf r),
    addNat acc.vcm (vendorOf r),
    addNat acc.acm (agencyOf r),
    addCell acc.mm (vendorOf r) (agencyOf r) (amountOf r)⟩

/-- The grouping pass of `aggregateForMatrix`. -/
def matrixAccum (data : List Record) : MAcc :=
  data.foldl matrixStep ⟨[], [], [], [], []⟩

/-- The extra per-entity counting pass of `aggregateForSankey` (its
"count" sort branch): vendor side. -/
def vendorCounts (data : List Record) : List (String × Nat) :=
  data.foldl (fun m r => addNat m (vendorOf r)) []

/-- Agency side of the counting pass. -/
def agencyCounts (data : List Record) : List (String × Nat) :=
  data.foldl (fun m r => addNat m (agencyOf r)) []

/-- `sortBy.split('-')` at character level: split at every dash, keeping
empty pieces, as `String.prototype.split` does. -/
def splitOnDashChars : List Char → List (List Char)
  | [] => [[]]
  | c :: rest =>
    let acc := splitOnDashChars rest
    if c = '-' then [] :: acc else (c :: acc.headD []) :: acc.tail

/-- The pieces of `sortBy.split('-')` as strings. -/
def splitDash (s : String) : List String :=
  (splitOnDashChars s.data).map (fun l => ⟨l⟩)

/-- `const [field, direction] = sortBy.split('-')`: the field part. -/
def sortField (sortBy : String) : String :=
  (splitDash sortBy).headD ""

/-- The direction part (`none` models the `undefined` of a one-piece split). -/
def sortDir (sortBy : String) : Option String :=
  (splitDash sortBy).get? 1

/-- `direction === 'desc' ? -1 : 1`. -/
def multiplier (sortBy : String) : Int :=
  if sortDir sortBy = some "desc" then -1 else 1

/-- The comparator `(a, b) => multiplier * (a[1] - b[1])` on amount entries,
as the relation "compares ≤ 0". -/
def amtLe (mult : Int) (a b : String × Rat) : Prop :=
  (mult : Rat) * (a.2 - b.2) ≤ 0

/-- Same comparator on count entries. -/
def cntLe (mult : Int) (a b : String × Nat) : Prop :=
  mult * ((a.2 : Int) - (b.2 : Int)) ≤ 0

/-- The comparator `(a, b) => multiplier * a.localeCompare(b)`. -/
def nameLe (mult : Int) (a b : String) : Prop :=
  mult * localeCompare a b ≤ 0

instance (mult : Int) : DecidableRel (amtLe mult) := by
  unfold amtLe; infer_instance

instance (mult : Int) : DecidableRel (cntLe mult) := by
  unfold cntLe; infer_instance

instance (mult : Int) : DecidableRel (nameLe mult) := by
  unfold nameLe; infer_instance

/-- The entity ordering shared by both aggregation functions: sort the
entries of the relevant map with the selected comparator and keep the keys.
`totals` and `counts` are the maps for the amount and count branches; the
name branch sorts the keys of the totals map. -/
def sortedEntities (sortBy : String) (totals : List (String × Rat))
    (counts : List (String × Nat)) : List String :=
  let f := sortField sortBy
  let mult := multiplier sortBy
  if f = "amount" then (totals.insertionSort (amtLe mult)).map (fun e => e.1)
  else if f = "count" then (counts.insertionSort (cntLe mult)).map (fun e => e.1)
  else (totals.map (fun e => e.1)).insertionSort (nameLe mult)

/-- A node pushed by `aggregateForSankey` (`total` is `vendorTotals.get(name)`,
which JS leaves `undefined` when absent). -/
structure SNode where
  name : String
  type : String
  id : String
  total : Option Rat
deriving DecidableEq, Repr

/-- A link of `aggregateForSankey`; `source`/`target` are `nodeIndex.get(...)`,
`undefined` (`none`) when the lookup misses. -/
structure SLink where
  source : Option Nat
  target : Option Nat
  value : Rat
  count : Nat
  vendor : String
  agency : String
  contracts : List Record
deriving DecidableEq, Repr

/-- Output shape of `aggregateForSankey`. -/
structure SankeyOut where
  nodes : List SNode
  links : List SLink
deriving Repr

/-- The `nodeIndex` entries contributed by one side: each name is keyed with
its type prefix and mapped to `nodes.length` at the moment it is pushed. -/
def idxMapFrom (pre : String) (n : Nat) : List String → List (String × Nat)
  | [] => []
  | v :: rest => (pre ++ v, n) :: idxMapFrom pre (n + 1) rest

/-- The `nodes` array: vendors first (left side), then agencies. -/
def sankeyNodes (sv sa : List String) (vt ag : List (String × Rat)) : List SNode :=
  sv.map (fun v => ⟨v, "vendor", "vendor:" ++ v, jsGet vt v⟩) ++
    sa.map (fun a => ⟨a, "agency", "agency:" ++ a, jsGet ag a⟩)

/-- The `nodeIndex` map.  The sorted name lists have no duplicates, so the
first-match lookup of an association list agrees with `Map.get`. -/
def sankeyNodeIndex (sv sa : List String) : List (String × Nat) :=
  idxMapFrom "vendor:" 0 sv ++ idxMapFrom "agency:" sv.length sa

namespace API

/-- `API.aggregateForSankey`. -/
def aggregateForSankey (data : List Record) (sortBy : String) : SankeyOut :=
  let acc := sankeyAccum data
  let sortedVendors := sortedEntities sortBy acc.vt (vendorCounts data)
  let sortedAgencies := sortedEntities sortBy acc.ag (agencyCounts data)
  let nodes := sankeyNodes sortedVendors sortedAgencies acc.vt acc.ag
  let nodeIndex := sankeyNodeIndex sortedVendors sortedAgencies
  let links := acc.lm.map (fun e =>
    { source := jsGet nodeIndex ("vendor:" ++ e.2.vendor)
      target := jsGet nodeIndex ("agency:" ++ e.2.agency)
      value := e.2.amount
      count := e.2.count
      vendor := e.2.vendor
      agency := e.2.agency
      contracts := e.2.contracts })
  ⟨nodes, links⟩

end API

/-- Output shape of `aggregateForMatrix` (`vendorTotals`/`agencyTotals` carry
`Map.get` results, `undefined` when absent). -/
structure MatrixOut where
  vendors : List String
  agencies : List String
  matrix : List (List Cell)
  vendorTotals : List (Option Rat)
  agencyTotals : List (Option Rat)
deriving Repr

namespace API

/-- `API.aggregateForMatrix`. -/
def aggregateForMatrix (data : List Record) (sortBy : String) : MatrixOut :=
  let acc := matrixAccum data
  let vendors := sortedEntities sortBy acc.vtm acc.vcm
  let agencies := sortedEntities sortBy acc.agm acc.acm
  let matrix := vendors.map (fun v =>
    agencies.map (fun a => (jsGet acc.mm (pairKey v a)).getD ⟨0, 0⟩))
  ⟨vendors, agencies, matrix,
    vendors.map (fun v => jsGet acc.vtm v),
    agencies.map (fun a => jsGet acc.agm a)⟩

end API

/-- The `matrix[i][j]` access. -/
def cellAt (M : MatrixOut) (i j : Nat) : Option Cell :=
  (M.matrix.get? i).bind (fun row => row.get? j)

/-! ## Client-side filtering (js/filters.js) -/

/-- The filter state fields the evaluator and the sorter read. -/
structure FilterState where
  searchQuery : String
  selectedVendors : List String
  selectedAgencies : List String
  sortBy : String
deriving Repr

namespace Filters

/-- One record against the lowercased query: some field is truthy and its
lowercase form contains the query. -/
def searchPred (query : String) (r : Record) : Bool :=
  [r.vendor_name, r.agency_name, r.short_title, some r.additional_info].any
    (fun f =>
      match f with
      | none => false
      | some s => !(s = "") && strIncludes (jsToLower s) query)

/-- The search stage of `Filters.applyFilters` (skipped on a falsy query). -/
def searchStage (st : FilterState) (l : List Record) : List Record :=
  if st.searchQuery = "" then l
  else l.filter (searchPred (jsToLower st.searchQuery))

/-- The vendor-dropdown stage. -/
def vendorStage (st : FilterState) (l : List Record) : List Record :=
  if st.selectedVendors = [] then l
  else l.filter (fun r =>
    match r.vendor_name with
    | some v => st.selectedVendors.contains v
    | none => false)

/-- The agency-dropdown stage. -/
def agencyStage (st : FilterState) (l : List Record) : List Record :=
  if st.selectedAgencies = [] then l
  else l.filter (fun r =>
    match r.agency_name with
    | some a => st.selectedAgencies.contains a
    | none => false)

/-- The per-record comparator of `Filters.sortData`: amount and count both
compare `contract_amount || 0`, name compares lowercased `vendor_name || ''`,
an unrecognized field compares everything equal. -/
def recCmp (f : String) (mult : Int) (a b : Record) : Rat :=
  if f = "amount" then (mult : Rat) * (a.contract_amount - b.contract_amount)
  else if f = "count" then (mult : Rat) * (a.contract_amount - b.contract_amount)
  else if f = "name" then
    (mult : Rat) *
      ((localeCompare (jsToLower (jsOr a.vendor_name "")) (jsToLower (jsOr b.vendor_name "")) : Int) : Rat)
  else 0

/-- The comparator as a "compares ≤ 0" relation. -/
def recLe (f : String) (mult : Int) (a b : Record) : Prop :=
  recCmp f mult a b ≤ 0

instance (f : String) (mult : Int) : DecidableRel (recLe f mult) := by
  unfold recLe; infer_instance

/-- `Filters.sortData`: sorts a spread copy, leaving the argument alone. -/
def sortData (st : FilterState) (data : List Record) : List Record :=
  data.insertionSort (recLe (sortField st.sortBy) (multiplier st.sortBy))

/-- `Filters.applyFilters`: search, vendor, agency stages in sequence, then
the active sort. -/
def applyFilters (st : FilterState) (data : List Record) : List Record :=
  sortData st (agencyStage st (vendorStage st (searchStage st data)))

end Filters

/-! ## Windowing in the views (js/sankey.js, js/matrix.js) and app stats -/

/-- The comparator `(a, b) => b.value - a.value` of `SankeyChart.render`. -/
def linkLe (a b : SLink) : Prop :=
  b.value - a.value ≤ 0

instance : DecidableRel linkLe := by
  unfold linkLe; infer_instance

instance (mult : Int) : IsTotal (String × Rat) (amtLe mult) :=
  ⟨fun a b => by
    unfold amtLe
    rcases le_total ((mult : Rat) * (a.2 - b.2)) 0 with h | h
    · exact Or.inl h
    · right
      have hh : (mult : Rat) * (b.2 - a.2) = -((mult : Rat) * (a.2 - b.2)) := by ring
      rw [hh]
      linarith⟩

instance (mult : Int) : IsTrans (String × Rat) (amtLe mult) :=
  ⟨fun a b c hab hbc => by
    unfold amtLe at hab hbc ⊢
    have hh : (mult : Rat) * (a.2 - c.2)
        = (mult : Rat) * (a.2 - b.2) + (mult : Rat) * (b.2 - c.2) := by ring
    rw [hh]
    linarith⟩

instance : IsTotal SLink linkLe :=
  ⟨fun a b => by
    unfold linkLe
    rcases le_total a.value b.value with h | h
    · right; linarith
    · left; linarith⟩

instance : IsTrans SLink linkLe :=
  ⟨fun a b c hab hbc => by
    unfold linkLe at hab hbc ⊢
    linarith⟩

namespace SankeyChart

/-- `sankeyData.links.sort((a, b) => b.value - a.value)`. -/
def sortLinks (links : List SLink) : List SLink :=
  links.insertionSort linkLe

/-- `.slice(0, maxLinks)` with `maxLinks = 100`. -/
def topLinks (links : List SLink) : List SLink :=
  (sortLinks links).take 100

/-- The `usedNodeIndices` set: every endpoint of every retained link
(`undefined` endpoints are added too, as in JS). -/
def usedNodeIndices (tls : List SLink) : List (Option Nat) :=
  tls.flatMap (fun l => [l.source, l.target])

/-- A rebuilt node: the spread of the original plus its new `index`. -/
structure FNode where
  node : SNode
  index : Nat
deriving DecidableEq, Repr

/-- The `sankeyData.nodes.forEach((node, oldIndex) => ...)` pass that keeps
used nodes and records old-index → new-index in `nodeMap`. -/
def rebuildAux (used : List (Option Nat)) :
    List SNode → Nat → List (Nat × Nat) × List FNode → List (Nat × Nat) × List FNode
  | [], _, acc => acc
  | n :: rest, oldIdx, (nm, fns) =>
    if some oldIdx ∈ used then
      rebuildAux used rest (oldIdx + 1) (jsUpd nm oldIdx fns.length (fun _ => fns.length), fns ++ [⟨n, fns.length⟩])
    else
      rebuildAux used rest (oldIdx + 1) (nm, fns)

/-- `nodeMap` and `filteredNodes`. -/
def rebuild (used : List (Option Nat)) (nodes : List SNode) :
    List (Nat × Nat) × List FNode :=
  rebuildAux used nodes 0 ([], [])

/-- Remap the retained links through `nodeMap` and drop those with an
`undefined` endpoint. -/
def remapLinks (nm : List (Nat × Nat)) (tls : List SLink) : List SLink :=
  (tls.map (fun l =>
    { l with
      source := l.source.bind (fun i => jsGet nm i)
      target := l.target.bind (fun i => jsGet nm i) })).filter
    (fun l => !(l.source = none) && !(l.target = none))

/-- The windowing steps of `SankeyChart.render` (lines 77–105): the filtered
nodes and links actually handed to the d3 layout. -/
def window (S : SankeyOut) : List FNode × List SLink :=
  let tls := topLinks S.links
  let used := usedNodeIndices tls
  let (nm, fns) := rebuild used S.nodes
  (fns, remapLinks nm tls)

end SankeyChart

/-- A row of the matrix view header/body after windowing. -/
structure EntityRow where
  name : String
  total : Option Rat
  index : Nat
deriving DecidableEq, Repr

namespace MatrixChart

/-- `matrixData.vendors.slice(0, 50).map((v, i) => ({name: v, total:
matrixData.vendorTotals[i], index: i}))`. -/
def vendorOrderOf (M : MatrixOut) : List EntityRow :=
  (M.vendors.take 50).enum.map (fun p => ⟨p.2, (M.vendorTotals.get? p.1).getD none, p.1⟩)

/-- The agency axis, capped at 30. -/
def agencyOrderOf (M : MatrixOut) : List EntityRow :=
  (M.agencies.take 30).enum.map (fun p => ⟨p.2, (M.agencyTotals.get? p.1).getD none, p.1⟩)

/-- `vendorOrder.reduce((sum, v) => sum + v.total, 0)` — the displayed grand
total.  (An absent `total` would poison the JS sum with `NaN`; the totals of
retained vendors are always present, which we prove where needed.) -/
def grandTotalOf (M : MatrixOut) : Rat :=
  ((vendorOrderOf M).map (fun v => v.total.getD 0)).sum

end MatrixChart

namespace App

/-- The header statistics of `App.applyClientFilters`: count of the filtered
set and `reduce((sum, r) => sum + (r.contract_amount || 0), 0)` over it. -/
def headerStats (st : FilterState) (data : List Record) : Nat × Rat :=
  let filteredData := Filters.applyFilters st data
  (filteredData.length, (filteredData.map amountOf).sum)

end App

/-! ## Pagination (js/api.js fetchAll) -/

namespace API

/-- The body of the `while (hasMore)` loop of `API.fetchAll`, over an
abstract page oracle `pageAt : offset → rows`.  Page size is 10000; after
pushing a page the offset advances and the loop stops on `offset > 100000` or
a short page.  The loop is embedded structurally on a fuel argument;
`fetchAllGo_fuel_stable` proves the result is fuel-independent from 11 up,
so the fuel is an artifact of the embedding, not a semantic cap. -/
def fetchAllGo (pageAt : Nat → List RawRecord) : Nat → Nat → List RawRecord
  | _, 0 => []
  | offset, fuel + 1 =>
    let pageData := pageAt offset
    if pageData.length = 0 then []
    else if 100000 < offset + 10000 then pageData
    else if pageData.length < 10000 then pageData
    else pageData ++ fetchAllGo pageAt (offset + 10000) fuel

/-- The `while (hasMore)` loop, run to completion (the guard stops the loop
after at most 11 pages). -/
def fetchAllLoop (pageAt : Nat → List RawRecord) (offset : Nat) : List RawRecord :=
  fetchAllGo pageAt offset 11

/-- `API.fetchAll`: run the loop from offset 0, then normalize. -/
def fetchAll (pageAt : Nat → List RawRecord) : List Record :=
  processData (fetchAllLoop pageAt 0)

end API

/-! ## Array aliasing model (for the non-mutation claim) -/

/-- A heap of JS arrays of records; an array reference is an index. -/
structure JSHeap where
  arrays : List (List Record)
deriving Repr

/-- Dereference (a dangling reference reads as empty). -/
def JSHeap.read (σ : JSHeap) (r : Nat) : List Record :=
  σ.arrays.getD r []

/-- Allocate a fresh array. -/
def JSHeap.alloc (σ : JSHeap) (v : List Record) : JSHeap × Nat :=
  (⟨σ.arrays ++ [v]⟩, σ.arrays.length)

/-- Overwrite the contents behind a reference. -/
def JSHeap.write (σ : JSHeap) (r : Nat) (v : List Record) : JSHeap :=
  ⟨σ.arrays.set r v⟩

/-- `[...a]`: allocates a fresh copy. -/
def spreadCopy (σ : JSHeap) (r : Nat) : JSHeap × Nat :=
  σ.alloc (σ.read r)

/-- `a.filter(p)`: allocates the filtered result, receiver untouched. -/
def filterOp (σ : JSHeap) (r : Nat) (p : Record → Bool) : JSHeap × Nat :=
  σ.alloc ((σ.read r).filter p)

/-- `a.sort(cmp)`: sorts IN PLACE and returns the same reference. -/
def sortOp (σ : JSHeap) (r : Nat) (f : String) (mult : Int) : JSHeap × Nat :=
  (σ.write r ((σ.read r).insertionSort (Filters.recLe f mult)), r)

namespace Filters

/-- `Filters.sortData` at the heap level: `return [...data].sort(...)`. -/
def sortDataH (st : FilterState) (σ : JSHeap) (dataRef : Nat) : JSHeap × Nat :=
  let (σ1, c) := spreadCopy σ dataRef
  sortOp σ1 c (sortField st.sortBy) (multiplier st.sortBy)

/-- `Filters.applyFilters` at the heap level: `let filtered = [...data]`,
three conditional `.filter` rebindings, then `sortData(filtered)`. -/
def applyFiltersH (st : FilterState) (σ : JSHeap) (dataRef : Nat) : JSHeap × Nat :=
  let (σ1, f1) := spreadCopy σ dataRef
  let (σ2, f2) :=
    if st.searchQuery = "" then (σ1, f1)
    else filterOp σ1 f1 (searchPred (jsToLower st.searchQuery))
  let (σ3, f3) :=
    if st.selectedVendors = [] then (σ2, f2)
    else filterOp σ2 f2 (fun r =>
      match r.vendor_name with
      | some v => st.selectedVendors.contains v
      | none => false)
  let (σ4, f4) :=
    if st.selectedAgencies = [] then (σ3, f3)
    else filterOp σ3 f3 (fun r =>
      match r.agency_name with
      | some a => st.selectedAgencies.contains a
      | none => false)
  sortDataH st σ4 f4

end Filters

/-! ## Observation functions used by the statements -/

/-- The vendor (left) nodes of a graph projection. -/
def vendorNodesOf (S : SankeyOut) : List SNode :=
  S.nodes.filter (fun n => n.type = "vendor")

/-- The agency (right) nodes of a graph projection. -/
def agencyNodesOf (S : SankeyOut) : List SNode :=
  S.nodes.filter (fun n => n.type = "agency")

/-- Sum of the `value` field over all graph edges. -/
def linkValueSum (S : SankeyOut) : Rat :=
  (S.links.map SLink.value).sum

/-- Sum of the `amount` field over all matrix cells. -/
def matrixAmountSum (M : MatrixOut) : Rat :=
  ((M.matrix.map (fun row => (row.map Cell.amount).sum)).sum)

/-- Sum of `contract_amount` over a record collection. -/
def recordAmountSum (data : List Record) : Rat :=
  (data.map amountOf).sum

/-- A name that stays clear of the `"|||"` bucket-key delimiter. -/
def barFree (s : String) : Prop :=
  '|' ∉ s.data

instance (s : String) : Decidable (barFree s) := by
  unfold barFree
  infer_instance

/-- The data a matrix cell keeps of a link bucket. -/
def projCell (l : LinkData) : Cell :=
  ⟨l.amount, l.count⟩

/-! ## Concrete inputs used by scenario, witness and counterexample theorems -/

/-- A minimal normalized record. -/
def mkRec (v a : String) (amt : Rat) : Record :=
  ⟨some v, some a, amt, none, "", none, none⟩

/-- The three-record scenario of the spec. -/
def data9 : List Record :=
  [mkRec "A" "X" 100, mkRec "A" "Y" 50, mkRec "B" "X" 25]

/-- Two records whose names contain the bucket-key delimiter: both pairs
collapse to the key `"A|||B|||C"`. -/
def dataBar : List Record :=
  [mkRec "A|||B" "C" 100, mkRec "A" "B|||C" 50]

/-- 31 agencies with pairwise distinct totals 1..31. -/
def data31 : List Record :=
  (List.range 31).map (fun i => mkRec "V" ("AG" ++ toString i) ((i : Rat) + 1))

/-- 51 vendors with total 1 each. -/
def data51 : List Record :=
  (List.range 51).map (fun i => mkRec ("V" ++ toString i) "A" 1)

/-- A filter state with everything inactive. -/
def stNone : FilterState :=
  ⟨"", [], [], "amount-desc"⟩

/-- A filter state whose query matches nothing in `data9`. -/
def stMiss : FilterState :=
  ⟨"zzz", [], [], "amount-desc"⟩

/-- An empty raw row. -/
def rawEmpty : RawRecord :=
  ⟨none, none, none, none, none, none, none, none, none⟩

/-- A raw row with a negative amount literal. -/
def rawNeg : RawRecord :=
  ⟨some "V", some "A", some "-5", none, none, none, none, none, none⟩

/-- A page oracle that always returns a full 10000-row page. -/
def pageAtFull : Nat → List RawRecord :=
  fun _ => List.replicate 10000 rawEmpty

/-- A one-array heap. -/
def heap9 : JSHeap :=
  ⟨[data9]⟩

/-- The heap state and binding after the search stage of `applyFiltersH`. -/
def Filters.stage2 (st : FilterState) (σ : JSHeap) (dataRef : Nat) : JSHeap × Nat :=
  let (σ1, f1) := spreadCopy σ dataRef
  if st.searchQuery = "" then (σ1, f1)
  else filterOp σ1 f1 (Filters.searchPred (jsToLower st.searchQuery))

/-- ... after the vendor stage. -/
def Filters.stage3 (st : FilterState) (σ : JSHeap) (dataRef : Nat) : JSHeap × Nat :=
  let (σ2, f2) := Filters.stage2 st σ dataRef
  if st.selectedVendors = [] then (σ2, f2)
  else filterOp σ2 f2 (fun r =>
    match r.vendor_name with
    | some v => st.selectedVendors.contains v
    | none => false)

/-- ... after the agency stage. -/
def Filters.stage4 (st : FilterState) (σ : JSHeap) (dataRef : Nat) : JSHeap × Nat :=
  let (σ3, f3) := Filters.stage3 st σ dataRef
  if st.selectedAgencies = [] then (σ3, f3)
  else filterOp σ3 f3 (fun r =>
    match r.agency_name with
    | some a => st.selectedAgencies.contains a
    | none => false)

/-! ## Lemmas: the JS map model -/

theorem jsGet_jsUpd_self {κ β : Type} [DecidableEq κ] (m : List (κ × β)) (k : κ) (d : β)
    (f : β → β) : jsGet (jsUpd m k d f) k = some (f ((jsGet m k).getD d)) := by
  induction m with
  | nil => simp [jsGet, jsUpd]
  | cons e rest ih =>
    obtain ⟨k0, v⟩ := e
    by_cases h : k0 = k
    · subst h; simp [jsGet, jsUpd]
    · simp [jsGet, jsUpd, h, ih]

theorem jsGet_jsUpd_ne {κ β : Type} [DecidableEq κ] (m : List (κ × β)) (k k2 : κ) (d : β)
    (f : β → β) (h : k2 ≠ k) : jsGet (jsUpd m k d f) k2 = jsGet m k2 := by
  have hkk : ¬ k = k2 := fun hh => h hh.symm
  induction m with
  | nil => simp [jsGet, jsUpd, hkk]
  | cons e rest ih =>
    obtain ⟨k0, v⟩ := e
    by_cases hk : k0 = k
    · subst hk; simp [jsGet, jsUpd, hkk]
    · simp only [jsUpd, if_neg hk]
      by_cases hk2 : k0 = k2 <;> simp [jsGet, hk2, ih]

theorem keys_jsUpd {κ β : Type} [DecidableEq κ] (m : List (κ × β)) (k : κ) (d : β)
    (f : β → β) : (jsUpd m k d f).map Prod.fst =
      if k ∈ m.map Prod.fst then m.map Prod.fst else m.map Prod.fst ++ [k] := by
  induction m with
  | nil => simp [jsUpd]
  | cons e rest ih =>
    obtain ⟨k0, v⟩ := e
    by_cases h : k0 = k
    · subst h; simp [jsUpd]
    · have hkk : ¬ k = k0 := fun hh => h hh.symm
      simp only [jsUpd, if_neg h, List.map_cons, ih]
      by_cases hm : k ∈ rest.map Prod.fst <;> simp [hm, List.mem_cons, hkk]

theorem nodup_keys_jsUpd {κ β : Type} [DecidableEq κ] (m : List (κ × β)) (k : κ) (d : β)
    (f : β → β) (h : (m.map Prod.fst).Nodup) : ((jsUpd m k d f).map Prod.fst).Nodup := by
  rw [keys_jsUpd]
  by_cases hm : k ∈ m.map Prod.fst
  · simpa [hm]
  · simpa [hm, List.nodup_append]

theorem mem_keys_iff_isSome {κ β : Type} [DecidableEq κ] (m : List (κ × β)) (k : κ) :
    k ∈ m.map Prod.fst ↔ (jsGet m k).isSome := by
  induction m with
  | nil => simp [jsGet]
  | cons e rest ih =>
    obtain ⟨k0, v⟩ := e
    by_cases h : k0 = k
    · subst h; simp [jsGet]
    · have hkk : ¬ k = k0 := fun hh => h hh.symm
      simp [jsGet, h, ih, hkk]

theorem jsGet_eq_none_iff {κ β : Type} [DecidableEq κ] (m : List (κ × β)) (k : κ) :
    jsGet m k = none ↔ k ∉ m.map Prod.fst := by
  rw [mem_keys_iff_isSome]
  cases jsGet m k <;> simp

theorem mem_of_jsGet {κ β : Type} [DecidableEq κ] {m : List (κ × β)} {k : κ} {v : β}
    (h : jsGet m k = some v) : (k, v) ∈ m := by
  induction m with
  | nil => simp [jsGet] at h
  | cons e rest ih =>
    obtain ⟨k0, v0⟩ := e
    by_cases hk : k0 = k
    · subst hk
      have h2 : v0 = v := by simpa [jsGet] using h
      subst h2; exact List.mem_cons_self _ _
    · simp only [jsGet, if_neg hk] at h
      exact List.mem_cons_of_mem _ (ih h)

theorem jsGet_of_mem_nodup {κ β : Type} [DecidableEq κ] {m : List (κ × β)} {k : κ} {v : β}
    (hnd : (m.map Prod.fst).Nodup) (h : (k, v) ∈ m) : jsGet m k = some v := by
  induction m with
  | nil => simp at h
  | cons e rest ih =>
    obtain ⟨k0, v0⟩ := e
    simp only [List.map_cons, List.nodup_cons] at hnd
    rcases List.mem_cons.mp h with h1 | h1
    · obtain ⟨hk, hv⟩ := Prod.mk.injEq .. ▸ h1
      subst hk; subst hv; simp [jsGet]
    · have hk : k0 ≠ k := by
        intro hh
        exact hnd.1 (hh ▸ (List.mem_map.mpr ⟨(k, v), h1, rfl⟩))
      simp [jsGet, hk, ih hnd.2 h1]

theorem mem_jsUpd_cases {κ β : Type} [DecidableEq κ] {m : List (κ × β)} {k : κ} {d : β}
    {f : β → β} {e : κ × β} (h : e ∈ jsUpd m k d f) :
    e ∈ m ∨ ∃ v0, e = (k, f v0) ∧ (v0 = d ∨ (k, v0) ∈ m) := by
  induction m with
  | nil =>
    simp only [jsUpd, List.mem_singleton] at h
    exact Or.inr ⟨d, h, Or.inl rfl⟩
  | cons e0 rest ih =>
    obtain ⟨k0, v0⟩ := e0
    by_cases hk : k0 = k
    · subst hk
      have h' : e ∈ (k0, f v0) :: rest := by simpa [jsUpd] using h
      rcases List.mem_cons.mp h' with h1 | h1
      · exact Or.inr ⟨v0, h1, Or.inr (List.mem_cons_self _ _)⟩
      · exact Or.inl (List.mem_cons_of_mem _ h1)
    · simp only [jsUpd, if_neg hk] at h
      rcases List.mem_cons.mp h with h1 | h1
      · exact Or.inl (h1 ▸ List.mem_cons_self _ _)
      · rcases ih h1 with h2 | ⟨w, hw1, hw2⟩
        · exact Or.inl (List.mem_cons_of_mem _ h2)
        · exact Or.inr ⟨w, hw1, hw2.imp id (List.mem_cons_of_mem _)⟩

theorem sum_map_jsUpd {κ β : Type} [DecidableEq κ] (m : List (κ × β)) (k : κ) (d : β)
    (f : β → β) (g : β → Rat) (c : Rat) (h1 : ∀ v, g (f v) = g v + c) (h2 : g d = 0) :
    ((jsUpd m k d f).map (fun e => g e.2)).sum = (m.map (fun e => g e.2)).sum + c := by
  induction m with
  | nil => simp [jsUpd, h1, h2]
  | cons e rest ih =>
    obtain ⟨k0, v⟩ := e
    by_cases hk : k0 = k
    · subst hk; simp [jsUpd, h1]; ring
    · simp only [jsUpd, if_neg hk, List.map_cons, List.sum_cons, ih]; ring

theorem map_jsUpd_proj {κ β γ : Type} [DecidableEq κ] (m : List (κ × β)) (k : κ) (d : β)
    (f : β → β) (p : β → γ) (g : γ → γ) (hp : ∀ v, p (f v) = g (p v)) :
    (jsUpd m k d f).map (Prod.map id p) = jsUpd (m.map (Prod.map id p)) k (p d) g := by
  induction m with
  | nil => simp [jsUpd, hp]
  | cons e rest ih =>
    obtain ⟨k0, v⟩ := e
    by_cases hk : k0 = k
    · subst hk; simp [jsUpd, hp]
    · simp [jsUpd, hk, ih]

theorem jsGet_map_proj {κ β γ : Type} [DecidableEq κ] (m : List (κ × β)) (k : κ)
    (p : β → γ) : jsGet (m.map (Prod.map id p)) k = (jsGet m k).map p := by
  induction m with
  | nil => simp [jsGet]
  | cons e rest ih =>
    obtain ⟨k0, v⟩ := e
    by_cases hk : k0 = k
    · subst hk; simp [jsGet]
    · simp [jsGet, hk, ih]

theorem keys_map_proj {κ β γ : Type} (m : List (κ × β)) (p : β → γ) :
    (m.map (Prod.map id p)).map Prod.fst = m.map Prod.fst := by
  induction m with
  | nil => simp
  | cons e rest ih => obtain ⟨k0, v⟩ := e; simp [ih]

theorem jsGet_append_of_some {κ β : Type} [DecidableEq κ] {m1 : List (κ × β)}
    (m2 : List (κ × β)) {k : κ} {v : β} (h : jsGet m1 k = some v) :
    jsGet (m1 ++ m2) k = some v := by
  induction m1 with
  | nil => simp [jsGet] at h
  | cons e rest ih =>
    obtain ⟨k0, v0⟩ := e
    by_cases hk : k0 = k
    · subst hk; simpa [jsGet] using h
    · simp only [jsGet, if_neg hk] at h ⊢
      exact ih h

theorem jsGet_append_of_none {κ β : Type} [DecidableEq κ] {m1 : List (κ × β)}
    (m2 : List (κ × β)) {k : κ} (h : jsGet m1 k = none) :
    jsGet (m1 ++ m2) k = jsGet m2 k := by
  induction m1 with
  | nil => simp
  | cons e rest ih =>
    obtain ⟨k0, v0⟩ := e
    by_cases hk : k0 = k
    · subst hk; simp [jsGet] at h
    · simp only [jsGet, if_neg hk] at h ⊢
      exact ih h

/-! ## Lemmas: strings and the bucket key -/

theorem strAppend_left_cancel {s a b : String} (h : s ++ a = s ++ b) : a = b := by
  apply String.ext
  have h2 := congrArg String.data h
  simp only [String.data_append] at h2
  exact List.append_cancel_left h2

theorem sepInj : ∀ (v1 v2 a1 a2 : List Char), '|' ∉ v1 → '|' ∉ v2 →
    v1 ++ '|' :: '|' :: '|' :: a1 = v2 ++ '|' :: '|' :: '|' :: a2 → v1 = v2 ∧ a1 = a2 := by
  intro v1
  induction v1 with
  | nil =>
    intro v2 a1 a2 _ h2 h
    cases v2 with
    | nil => simpa using h
    | cons c2 v2t =>
      simp only [List.nil_append, List.cons_append, List.cons.injEq] at h
      exact absurd (h.1 ▸ List.mem_cons_self c2 v2t) (h.1 ▸ h2)
  | cons c v1t ih =>
    intro v2 a1 a2 h1 h2 h
    cases v2 with
    | nil =>
      simp only [List.cons_append, List.nil_append, List.cons.injEq] at h
      exact absurd (h.1 ▸ List.mem_cons_self c v1t) (fun hh => (h.1 ▸ h1) hh)
    | cons c2 v2t =>
      simp only [List.cons_append, List.cons.injEq] at h
      have h3 := ih v2t a1 a2 (fun hh => h1 (List.mem_cons_of_mem _ hh))
        (fun hh => h2 (List.mem_cons_of_mem _ hh)) h.2
      exact ⟨by rw [h.1, h3.1], h3.2⟩

theorem pairKey_data (v a : String) :
    (pairKey v a).data = v.data ++ '|' :: '|' :: '|' :: a.data := by
  have hsep : ("|||" : String).data = ['|', '|', '|'] := rfl
  simp [pairKey, String.data_append, hsep]

theorem pairKey_inj {v1 v2 a1 a2 : String} (h1 : barFree v1) (h2 : barFree v2)
    (h : pairKey v1 a1 = pairKey v2 a2) : v1 = v2 ∧ a1 = a2 := by
  have hd := congrArg String.data h
  rw [pairKey_data, pairKey_data] at hd
  obtain ⟨hv, ha⟩ := sepInj v1.data v2.data a1.data a2.data h1 h2 hd
  exact ⟨String.ext hv, String.ext ha⟩

theorem pairKey_right_inj {v a1 a2 : String} (h : pairKey v a1 = pairKey v a2) : a1 = a2 := by
  have : (v ++ "|||") ++ a1 = (v ++ "|||") ++ a2 := by
    simpa [pairKey, String.append_assoc] using h
  exact strAppend_left_cancel this

/-! ## Concrete evaluations: scenario and counterexamples -/

/-- C9: the spec scenario, on `data9` with sort `"amount-desc"`: vendor order
A(150), B(25); agency order X(125), Y(50); the four matrix cells including the
zero/zero cell for the absent pair (B, Y); grand total 175. -/
theorem aggregate_scenario_amount_desc :
    (API.aggregateForMatrix data9 "amount-desc").vendors = ["A", "B"] ∧
    (API.aggregateForMatrix data9 "amount-desc").vendorTotals = [some 150, some 25] ∧
    (API.aggregateForMatrix data9 "amount-desc").agencies = ["X", "Y"] ∧
    (API.aggregateForMatrix data9 "amount-desc").agencyTotals = [some 125, some 50] ∧
    (API.aggregateForMatrix data9 "amount-desc").matrix =
      [[⟨100, 1⟩, ⟨50, 1⟩], [⟨25, 1⟩, ⟨0, 0⟩]] ∧
    MatrixChart.grandTotalOf (API.aggregateForMatrix data9 "amount-desc") = 175 := by
  decide

/-- On `dataBar` both (vendor, agency) pairs produce the same bucket key
`"A|||B|||C"`: the pair ("A", "B|||C") has no graph edge, yet its matrix cell
is (150, 2), not the zero/zero cell the claim promises for a missing pair. -/
theorem delimiter_collision_cex :
    (API.aggregateForMatrix dataBar "amount-desc").vendors.get? 1 = some "A" ∧
    (API.aggregateForMatrix dataBar "amount-desc").agencies.get? 1 = some "B|||C" ∧
    (∀ l ∈ (API.aggregateForSankey dataBar "amount-desc").links,
      ¬(l.vendor = "A" ∧ l.agency = "B|||C")) ∧
    cellAt (API.aggregateForMatrix dataBar "amount-desc") 1 1 = some ⟨150, 2⟩ ∧
    ¬ ((⟨150, 2⟩ : Cell) = ⟨0, 0⟩) := by
  decide

/-- On `dataBar` the matrix cell sum double-counts the collided bucket:
edges sum to 150 = the record sum, but the matrix cells sum to 300. -/
theorem sum_delimiter_cex :
    linkValueSum (API.aggregateForSankey dataBar "amount-desc") = 150 ∧
    recordAmountSum dataBar = 150 ∧
    matrixAmountSum (API.aggregateForMatrix dataBar "amount-desc") = 300 ∧
    ¬ matrixAmountSum (API.aggregateForMatrix dataBar "amount-desc")
        = recordAmountSum dataBar := by
  decide

/-- Under sort `"amount-asc"` the matrix view keeps the 30 agencies lowest by
amount: the dropped agency AG30 has total 31, strictly above every kept total,
so the kept agencies are not the highest by amount. -/
theorem matrix_window_cex :
    (MatrixChart.agencyOrderOf (API.aggregateForMatrix data31 "amount-asc")).length = 30 ∧
    (API.aggregateForMatrix data31 "amount-asc").agencyTotals.get? 30 = some (some 31) ∧
    (∀ row ∈ MatrixChart.agencyOrderOf (API.aggregateForMatrix data31 "amount-asc"),
      row.total.getD 0 < 31) ∧
    "AG30" ∉ (MatrixChart.agencyOrderOf (API.aggregateForMatrix data31 "amount-asc")).map
        EntityRow.name := by
  decide

/-- With 51 vendors the displayed matrix grand total sums only the kept 50
rows (50), while the unwindowed filtered total is 51. -/
theorem grand_total_window_cex :
    MatrixChart.grandTotalOf (API.aggregateForMatrix data51 "amount-desc") = 50 ∧
    (App.headerStats stNone data51).2 = 51 ∧
    ¬ MatrixChart.grandTotalOf (API.aggregateForMatrix data51 "amount-desc")
        = (App.headerStats stNone data51).2 := by
  decide

/-- `parseFloat("-5") || 0` is `-5`: normalization passes negative amounts
through, so the normalized amount is not always non-negative. -/
theorem negative_amount_cex :
    (API.processData [rawNeg]).map Record.contract_amount = [-5] ∧
    ¬ (0 : Rat) ≤ -5 := by
  decide

/-- Above the stopping bound the loop result does not depend on the fuel:
the loop terminates through its own guard and short/empty-page conditions. -/
theorem fetchAllGo_fuel_stable (pageAt : Nat → List RawRecord) :
    ∀ f g offset, (100000 - offset) / 10000 < f → (100000 - offset) / 10000 < g →
      API.fetchAllGo pageAt offset f = API.fetchAllGo pageAt offset g := by
  intro f
  induction f with
  | zero => intro g offset hf hg; omega
  | succ f ih =>
    intro g offset hf hg
    cases g with
    | zero => omega
    | succ g =>
      simp only [API.fetchAllGo]
      by_cases h0 : (pageAt offset).length = 0
      · simp [h0]
      · by_cases h1 : 100000 < offset + 10000
        · simp [h0, h1]
        · by_cases h2 : (pageAt offset).length < 10000
          · simp [h0, h1, h2]
          · simp only [if_neg h0, if_neg h1, if_neg h2]
            rw [ih g (offset + 10000) (by omega) (by omega)]

/-- On a full-page oracle, the loop from a 10000-aligned offset collects
`110000 - offset` rows: the cap check runs only after a page is pushed, so one
extra full page beyond offset 100000 is kept. -/
theorem fetchAllGo_full_len : ∀ fuel offset, offset % 10000 = 0 → offset ≤ 100000 →
    (100000 - offset) / 10000 < fuel →
    (API.fetchAllGo pageAtFull offset fuel).length = 110000 - offset := by
  intro fuel
  induction fuel with
  | zero => intro offset h1 h2 h3; omega
  | succ fuel ih =>
    intro offset h1 h2 h3
    simp only [API.fetchAllGo, pageAtFull, List.length_replicate]
    rw [if_neg (by omega)]
    by_cases hoff : 100000 < offset + 10000
    · rw [if_pos hoff]
      simp only [List.length_replicate]
      omega
    · rw [if_neg hoff, if_neg (by omega), List.length_append]
      simp only [List.length_replicate]
      rw [ih (offset + 10000) (by omega) (by omega) (by omega)]
      omega

/-- With every page full, `fetchAll` returns 110000 rows, exceeding the
claimed 100000-row cap. -/
theorem fetchAll_cap_cex :
    (API.fetchAll pageAtFull).length = 110000 ∧
    ¬ (API.fetchAll pageAtFull).length ≤ 100000 := by
  have h := fetchAllGo_full_len 11 0 (by omega) (by omega) (by omega)
  have h2 : (API.fetchAll pageAtFull).length = 110000 := by
    rw [API.fetchAll, API.processData, List.length_map, API.fetchAllLoop, h]
  exact ⟨h2, by omega⟩

/-! ## Lemmas: the two grouping passes agree componentwise -/

theorem sankey_foldl_vt (data : List Record) (acc : SAcc) :
    (data.foldl sankeyStep acc).vt
      = data.foldl (fun m r => addRat m (vendorOf r) (amountOf r)) acc.vt := by
  induction data generalizing acc with
  | nil => rfl
  | cons r rest ih => simp [List.foldl_cons, sankeyStep, ih]

theorem sankey_foldl_ag (data : List Record) (acc : SAcc) :
    (data.foldl sankeyStep acc).ag
      = data.foldl (fun m r => addRat m (agencyOf r) (amountOf r)) acc.ag := by
  induction data generalizing acc with
  | nil => rfl
  | cons r rest ih => simp [List.foldl_cons, sankeyStep, ih]

theorem sankey_foldl_lm (data : List Record) (acc : SAcc) :
    (data.foldl sankeyStep acc).lm
      = data.foldl (fun m r => addLink m (vendorOf r) (agencyOf r) (amountOf r) r) acc.lm := by
  induction data generalizing acc with
  | nil => rfl
  | cons r rest ih => simp [List.foldl_cons, sankeyStep, ih]

theorem matrix_foldl_vtm (data : List Record) (acc : MAcc) :
    (data.foldl matrixStep acc).vtm
      = data.foldl (fun m r => addRat m (vendorOf r) (amountOf r)) acc.vtm := by
  induction data generalizing acc with
  | nil => rfl
  | cons r rest ih => simp [List.foldl_cons, matrixStep, ih]

theorem matrix_foldl_agm (data : List Record) (acc : MAcc) :
    (data.foldl matrixStep acc).agm
      = data.foldl (fun m r => addRat m (agencyOf r) (amountOf r)) acc.agm := by
  induction data generalizing acc with
  | nil => rfl
  | cons r rest ih => simp [List.foldl_cons, matrixStep, ih]

theorem matrix_foldl_vcm (data : List Record) (acc : MAcc) :
    (data.foldl matrixStep acc).vcm
      = data.foldl (fun m r => addNat m (vendorOf r)) acc.vcm := by
  induction data generalizing acc with
  | nil => rfl
  | cons r rest ih => simp [List.foldl_cons, matrixStep, ih]

theorem matrix_foldl_acm (data : List Record) (acc : MAcc) :
    (data.foldl matrixStep acc).acm
      = data.foldl (fun m r => addNat m (agencyOf r)) acc.acm := by
  induction data generalizing acc with
  | nil => rfl
  | cons r rest ih => simp [List.foldl_cons, matrixStep, ih]

theorem matrix_foldl_mm (data : List Record) (acc : MAcc) :
    (data.foldl matrixStep acc).mm
      = data.foldl (fun m r => addCell m (vendorOf r) (agencyOf r) (amountOf r)) acc.mm := by
  induction data generalizing acc with
  | nil => rfl
  | cons r rest ih => simp [List.foldl_cons, matrixStep, ih]

theorem vt_eq_vtm (data : List Record) : (sankeyAccum data).vt = (matrixAccum data).vtm := by
  rw [sankeyAccum, matrixAccum, sankey_foldl_vt, matrix_foldl_vtm]

theorem ag_eq_agm (data : List Record) : (sankeyAccum data).ag = (matrixAccum data).agm := by
  rw [sankeyAccum, matrixAccum, sankey_foldl_ag, matrix_foldl_agm]

theorem vendorCounts_eq_vcm (data : List Record) :
    vendorCounts data = (matrixAccum data).vcm := by
  rw [vendorCounts, matrixAccum, matrix_foldl_vcm]

theorem agencyCounts_eq_acm (data : List Record) :
    agencyCounts data = (matrixAccum data).acm := by
  rw [agencyCounts, matrixAccum, matrix_foldl_acm]

theorem addLink_proj (m : List (String × LinkData)) (v a : String) (amt : Rat) (r : Record) :
    (addLink m v a amt r).map (Prod.map id projCell)
      = addCell (m.map (Prod.map id projCell)) v a amt := by
  unfold addLink addCell
  exact map_jsUpd_proj m (pairKey v a) _ _ projCell _ (fun l => rfl)

theorem mm_eq_lm_proj (data : List Record) :
    (matrixAccum data).mm = (sankeyAccum data).lm.map (Prod.map id projCell) := by
  rw [matrixAccum, matrix_foldl_mm, sankeyAccum, sankey_foldl_lm]
  have aux : ∀ (l : List Record) (m0 : List (String × LinkData)),
      l.foldl (fun m r => addCell m (vendorOf r) (agencyOf r) (amountOf r))
          (m0.map (Prod.map id projCell))
        = (l.foldl (fun m r => addLink m (vendorOf r) (agencyOf r) (amountOf r) r) m0).map
            (Prod.map id projCell) := by
    intro l
    induction l with
    | nil => intro m0; rfl
    | cons r rest ih =>
      intro m0
      rw [List.foldl_cons, List.foldl_cons, ← addLink_proj, ih]
  simpa using aux data []

/-! ## Lemmas: lookups into the accumulated maps -/

theorem jsGet_ratFold (key : Record → String) (val : Record → Rat) :
    ∀ (data : List Record) (m0 : List (String × Rat)) (v : String),
      jsGet (data.foldl (fun m r => addRat m (key r) (val r)) m0) v =
        if v ∈ data.map key ∨ (jsGet m0 v).isSome
        then some ((jsGet m0 v).getD 0 + ((data.filter (fun r => key r = v)).map val).sum)
        else none := by
  intro data
  induction data with
  | nil =>
    intro m0 v
    cases h : jsGet m0 v <;> simp [h]
  | cons r rest ih =>
    intro m0 v
    rw [List.foldl_cons, ih (addRat m0 (key r) (val r)) v]
    by_cases hv : key r = v
    · have hself : jsGet (addRat m0 (key r) (val r)) v
          = some ((jsGet m0 v).getD 0 + val r) := by
        rw [← hv]
        exact jsGet_jsUpd_self m0 (key r) 0 (fun x => x + val r)
      rw [hself]
      simp [hv, List.filter_cons, add_assoc]
    · have hvne : v ≠ key r := fun hh => hv hh.symm
      have hne : jsGet (addRat m0 (key r) (val r)) v = jsGet m0 v :=
        jsGet_jsUpd_ne m0 (key r) v 0 (fun x => x + val r) hvne
      rw [hne]
      simp [List.filter_cons, hv, hvne]

theorem jsGet_vtm (data : List Record) (v : String) :
    jsGet (matrixAccum data).vtm v =
      if v ∈ data.map vendorOf
      then some (((data.filter (fun r => vendorOf r = v)).map amountOf).sum)
      else none := by
  rw [matrixAccum, matrix_foldl_vtm]
  rw [jsGet_ratFold vendorOf amountOf data [] v]
  simp [jsGet]

theorem jsGet_agm (data : List Record) (a : String) :
    jsGet (matrixAccum data).agm a =
      if a ∈ data.map agencyOf
      then some (((data.filter (fun r => agencyOf r = a)).map amountOf).sum)
      else none := by
  rw [matrixAccum, matrix_foldl_agm]
  rw [jsGet_ratFold agencyOf amountOf data [] a]
  simp [jsGet]

/-! ## Lemmas: keys of the accumulated maps -/

theorem keys_foldl_pair {β γ : Type} (key : Record → String) (d1 : β) (d2 : γ)
    (f1 : Record → β → β) (f2 : Record → γ → γ) :
    ∀ (data : List Record) (m1 : List (String × β)) (m2 : List (String × γ)),
      m1.map Prod.fst = m2.map Prod.fst →
      (data.foldl (fun m r => jsUpd m (key r) d1 (f1 r)) m1).map Prod.fst =
        (data.foldl (fun m r => jsUpd m (key r) d2 (f2 r)) m2).map Prod.fst := by
  intro data
  induction data with
  | nil => intro m1 m2 h; exact h
  | cons r rest ih =>
    intro m1 m2 h
    rw [List.foldl_cons, List.foldl_cons]
    apply ih
    rw [keys_jsUpd, keys_jsUpd, h]

theorem nodup_keys_foldl {β : Type} (key : Record → String) (d : Record → β)
    (f : Record → β → β) :
    ∀ (data : List Record) (m0 : List (String × β)), (m0.map Prod.fst).Nodup →
      ((data.foldl (fun m r => jsUpd m (key r) (d r) (f r)) m0).map Prod.fst).Nodup := by
  intro data
  induction data with
  | nil => intro m0 h; exact h
  | cons r rest ih =>
    intro m0 h
    rw [List.foldl_cons]
    exact ih _ (nodup_keys_jsUpd m0 (key r) (d r) (f r) h)

theorem nodup_keys_vtm (data : List Record) :
    ((matrixAccum data).vtm.map Prod.fst).Nodup := by
  rw [matrixAccum, matrix_foldl_vtm]
  exact nodup_keys_foldl vendorOf (fun _ => 0) (fun r x => x + amountOf r) data [] (by simp)

theorem nodup_keys_agm (data : List Record) :
    ((matrixAccum data).agm.map Prod.fst).Nodup := by
  rw [matrixAccum, matrix_foldl_agm]
  exact nodup_keys_foldl agencyOf (fun _ => 0) (fun r x => x + amountOf r) data [] (by simp)

theorem nodup_keys_lm (data : List Record) :
    ((sankeyAccum data).lm.map Prod.fst).Nodup := by
  rw [sankeyAccum, sankey_foldl_lm]
  exact nodup_keys_foldl (fun r => pairKey (vendorOf r) (agencyOf r))
    (fun r => (⟨vendorOf r, agencyOf r, 0, 0, []⟩ : LinkData))
    (fun r l => (⟨l.vendor, l.agency, l.amount + amountOf r, l.count + 1,
      l.contracts ++ [r]⟩ : LinkData))
    data [] (by simp)

theorem nodup_keys_mm (data : List Record) :
    ((matrixAccum data).mm.map Prod.fst).Nodup := by
  rw [mm_eq_lm_proj, keys_map_proj]
  exact nodup_keys_lm data

theorem keys_vcm_eq_keys_vtm (data : List Record) :
    (matrixAccum data).vcm.map Prod.fst = (matrixAccum data).vtm.map Prod.fst := by
  rw [matrixAccum, matrix_foldl_vcm, matrix_foldl_vtm]
  exact keys_foldl_pair vendorOf (0 : Nat) (0 : Rat)
    (fun _ x => x + 1) (fun r x => x + amountOf r) data [] [] rfl

theorem keys_acm_eq_keys_agm (data : List Record) :
    (matrixAccum data).acm.map Prod.fst = (matrixAccum data).agm.map Prod.fst := by
  rw [matrixAccum, matrix_foldl_acm, matrix_foldl_agm]
  exact keys_foldl_pair agencyOf (0 : Nat) (0 : Rat)
    (fun _ x => x + 1) (fun r x => x + amountOf r) data [] [] rfl

theorem mem_keys_vtm (data : List Record) (v : String) :
    v ∈ (matrixAccum data).vtm.map Prod.fst ↔ v ∈ data.map vendorOf := by
  rw [mem_keys_iff_isSome, jsGet_vtm]
  by_cases h : v ∈ data.map vendorOf <;> simp [h]

theorem mem_keys_agm (data : List Record) (a : String) :
    a ∈ (matrixAccum data).agm.map Prod.fst ↔ a ∈ data.map agencyOf := by
  rw [mem_keys_iff_isSome, jsGet_agm]
  by_cases h : a ∈ data.map agencyOf <;> simp [h]

/-! ## Lemmas: the shapes of the two projections -/

theorem aggregateForSankey_nodes (data : List Record) (sortBy : String) :
    (API.aggregateForSankey data sortBy).nodes =
      sankeyNodes (sortedEntities sortBy (sankeyAccum data).vt (vendorCounts data))
        (sortedEntities sortBy (sankeyAccum data).ag (agencyCounts data))
        (sankeyAccum data).vt (sankeyAccum data).ag := rfl

theorem aggregateForSankey_links (data : List Record) (sortBy : String) :
    (API.aggregateForSankey data sortBy).links =
      (sankeyAccum data).lm.map (fun e =>
        { source := jsGet (sankeyNodeIndex
              (sortedEntities sortBy (sankeyAccum data).vt (vendorCounts data))
              (sortedEntities sortBy (sankeyAccum data).ag (agencyCounts data)))
            ("vendor:" ++ e.2.vendor)
          target := jsGet (sankeyNodeIndex
              (sortedEntities sortBy (sankeyAccum data).vt (vendorCounts data))
              (sortedEntities sortBy (sankeyAccum data).ag (agencyCounts data)))
            ("agency:" ++ e.2.agency)
          value := e.2.amount
          count := e.2.count
          vendor := e.2.vendor
          agency := e.2.agency
          contracts := e.2.contracts }) := rfl

theorem aggregateForMatrix_vendors (data : List Record) (sortBy : String) :
    (API.aggregateForMatrix data sortBy).vendors
      = sortedEntities sortBy (matrixAccum data).vtm (matrixAccum data).vcm := rfl

theorem aggregateForMatrix_agencies (data : List Record) (sortBy : String) :
    (API.aggregateForMatrix data sortBy).agencies
      = sortedEntities sortBy (matrixAccum data).agm (matrixAccum data).acm := rfl

theorem aggregateForMatrix_matrix (data : List Record) (sortBy : String) :
    (API.aggregateForMatrix data sortBy).matrix
      = (API.aggregateForMatrix data sortBy).vendors.map (fun v =>
          (API.aggregateForMatrix data sortBy).agencies.map (fun a =>
            (jsGet (matrixAccum data).mm (pairKey v a)).getD ⟨0, 0⟩)) := rfl

theorem aggregateForMatrix_vendorTotals (data : List Record) (sortBy : String) :
    (API.aggregateForMatrix data sortBy).vendorTotals
      = (API.aggregateForMatrix data sortBy).vendors.map
          (fun v => jsGet (matrixAccum data).vtm v) := rfl

theorem aggregateForMatrix_agencyTotals (data : List Record) (sortBy : String) :
    (API.aggregateForMatrix data sortBy).agencyTotals
      = (API.aggregateForMatrix data sortBy).agencies.map
          (fun a => jsGet (matrixAccum data).agm a) := rfl

/-! ## Lemmas: link-bucket invariant and entity orders -/

theorem lm_inv (data : List Record) :
    ∀ e ∈ (sankeyAccum data).lm,
      e.1 = pairKey e.2.vendor e.2.agency ∧
      e.2.vendor ∈ data.map vendorOf ∧ e.2.agency ∈ data.map agencyOf := by
  have aux : ∀ (V A : List String) (l : List Record) (m0 : List (String × LinkData)),
      (∀ e ∈ m0, e.1 = pairKey e.2.vendor e.2.agency ∧ e.2.vendor ∈ V ∧ e.2.agency ∈ A) →
      (∀ r ∈ l, vendorOf r ∈ V ∧ agencyOf r ∈ A) →
      ∀ e ∈ l.foldl (fun m r => addLink m (vendorOf r) (agencyOf r) (amountOf r) r) m0,
        e.1 = pairKey e.2.vendor e.2.agency ∧ e.2.vendor ∈ V ∧ e.2.agency ∈ A := by
    intro V A l
    induction l with
    | nil => intro m0 h0 _ e he; exact h0 e he
    | cons r rest ih =>
      intro m0 h0 hl e he
      rw [List.foldl_cons] at he
      refine ih _ ?_ (fun x hx => hl x (List.mem_cons_of_mem _ hx)) e he
      intro e2 he2
      rcases mem_jsUpd_cases he2 with hm | ⟨v0, hv0, hcase⟩
      · exact h0 e2 hm
      · rcases hcase with hd | hmem
        · subst hd
          subst hv0
          refine ⟨rfl, ?_, ?_⟩
          · exact (hl r (List.mem_cons_self _ _)).1
          · exact (hl r (List.mem_cons_self _ _)).2
        · obtain ⟨hk, hv, ha⟩ := h0 _ hmem
          subst hv0
          exact ⟨hk, hv, ha⟩
  have hlm : (sankeyAccum data).lm
      = data.foldl (fun m r => addLink m (vendorOf r) (agencyOf r) (amountOf r) r) [] := by
    rw [sankeyAccum, sankey_foldl_lm]
  rw [hlm]
  exact aux (data.map vendorOf) (data.map agencyOf) data [] (by simp)
    (fun r hr => ⟨List.mem_map_of_mem vendorOf hr, List.mem_map_of_mem agencyOf hr⟩)

theorem sortedEntities_perm (sortBy : String) (totals : List (String × Rat))
    (counts : List (String × Nat)) (h : counts.map Prod.fst = totals.map Prod.fst) :
    (sortedEntities sortBy totals counts).Perm (totals.map Prod.fst) := by
  simp only [sortedEntities]
  by_cases h1 : sortField sortBy = "amount"
  · rw [if_pos h1]
    exact (List.perm_insertionSort _ _).map _
  · by_cases h2 : sortField sortBy = "count"
    · rw [if_neg h1, if_pos h2, ← h]
      exact (List.perm_insertionSort _ _).map _
    · rw [if_neg h1, if_neg h2]
      exact List.perm_insertionSort _ _

theorem sortedEntities_mem (sortBy : String) (totals : List (String × Rat))
    (counts : List (String × Nat)) (h : counts.map Prod.fst = totals.map Prod.fst)
    (v : String) : v ∈ sortedEntities sortBy totals counts ↔ v ∈ totals.map Prod.fst :=
  (sortedEntities_perm sortBy totals counts h).mem_iff

theorem sortedEntities_nodup (sortBy : String) (totals : List (String × Rat))
    (counts : List (String × Nat)) (h : counts.map Prod.fst = totals.map Prod.fst)
    (hnd : (totals.map Prod.fst).Nodup) : (sortedEntities sortBy totals counts).Nodup :=
  ((sortedEntities_perm sortBy totals counts h).nodup_iff).mpr hnd

theorem mem_vendors_iff (data : List Record) (sortBy : String) (v : String) :
    v ∈ (API.aggregateForMatrix data sortBy).vendors ↔ v ∈ data.map vendorOf := by
  rw [aggregateForMatrix_vendors,
    sortedEntities_mem sortBy _ _ (keys_vcm_eq_keys_vtm data), mem_keys_vtm]

theorem mem_agencies_iff (data : List Record) (sortBy : String) (a : String) :
    a ∈ (API.aggregateForMatrix data sortBy).agencies ↔ a ∈ data.map agencyOf := by
  rw [aggregateForMatrix_agencies,
    sortedEntities_mem sortBy _ _ (keys_acm_eq_keys_agm data), mem_keys_agm]

theorem cellAt_eq (data : List Record) (sortBy : String) (i j : Nat) (v a : String)
    (hv : (API.aggregateForMatrix data sortBy).vendors[i]? = some v)
    (ha : (API.aggregateForMatrix data sortBy).agencies[j]? = some a) :
    cellAt (API.aggregateForMatrix data sortBy) i j
      = some ((jsGet (matrixAccum data).mm (pairKey v a)).getD ⟨0, 0⟩) := by
  simp [cellAt, aggregateForMatrix_matrix, hv, ha]

theorem vendorNodesOf_sankey (data : List Record) (sortBy : String) :
    vendorNodesOf (API.aggregateForSankey data sortBy) =
      (sortedEntities sortBy (sankeyAccum data).vt (vendorCounts data)).map
        (fun v => (⟨v, "vendor", "vendor:" ++ v, jsGet (sankeyAccum data).vt v⟩ : SNode)) := by
  have h1 : ∀ (l : List String) (tm : List (String × Rat)),
      (l.map (fun v => (⟨v, "vendor", "vendor:" ++ v, jsGet tm v⟩ : SNode))).filter
          (fun n => n.type = "vendor") =
        l.map (fun v => (⟨v, "vendor", "vendor:" ++ v, jsGet tm v⟩ : SNode)) := by
    intro l tm
    induction l with
    | nil => rfl
    | cons x xs ih => simp [ih]
  have h2 : ∀ (l : List String) (tm : List (String × Rat)),
      (l.map (fun a => (⟨a, "agency", "agency:" ++ a, jsGet tm a⟩ : SNode))).filter
          (fun n => n.type = "vendor") = [] := by
    intro l tm
    induction l with
    | nil => rfl
    | cons x xs ih => simp [ih]
  rw [vendorNodesOf, aggregateForSankey_nodes, sankeyNodes, List.filter_append, h1, h2,
    List.append_nil]

theorem agencyNodesOf_sankey (data : List Record) (sortBy : String) :
    agencyNodesOf (API.aggregateForSankey data sortBy) =
      (sortedEntities sortBy (sankeyAccum data).ag (agencyCounts data)).map
        (fun a => (⟨a, "agency", "agency:" ++ a, jsGet (sankeyAccum data).ag a⟩ : SNode)) := by
  have h1 : ∀ (l : List String) (tm : List (String × Rat)),
      (l.map (fun v => (⟨v, "vendor", "vendor:" ++ v, jsGet tm v⟩ : SNode))).filter
          (fun n => n.type = "agency") = [] := by
    intro l tm
    induction l with
    | nil => rfl
    | cons x xs ih => simp [ih]
  have h2 : ∀ (l : List String) (tm : List (String × Rat)),
      (l.map (fun a => (⟨a, "agency", "agency:" ++ a, jsGet tm a⟩ : SNode))).filter
          (fun n => n.type = "agency") =
        l.map (fun a => (⟨a, "agency", "agency:" ++ a, jsGet tm a⟩ : SNode)) := by
    intro l tm
    induction l with
    | nil => rfl
    | cons x xs ih => simp [ih]
  rw [agencyNodesOf, aggregateForSankey_nodes, sankeyNodes, List.filter_append, h1, h2,
    List.nil_append]

theorem barFree_vendor_of_mem (data : List Record)
    (h : ∀ r ∈ data, barFree (vendorOf r) ∧ barFree (agencyOf r))
    {v : String} (hv : v ∈ data.map vendorOf) : barFree v := by
  obtain ⟨r, hr, hrv⟩ := List.mem_map.mp hv
  exact hrv ▸ (h r hr).1

/-- C1 (amended): for every record collection whose vendor and agency names
stay clear of the `'|'` delimiter character, and every sort key, the graph and
matrix projections agree: same ordered vendor and agency lists, same
per-entity totals, each edge equals the matrix cell of its pair, and a pair
with no edge has the zero/zero cell.  (The ordered lists and totals agree for
arbitrary names; the delimiter condition is needed only for the missing-pair
clause, see the counterexample.) -/
theorem sankey_matrix_agree (data : List Record) (sortBy : String)
    (h : ∀ r ∈ data, barFree (vendorOf r) ∧ barFree (agencyOf r)) :
    ((vendorNodesOf (API.aggregateForSankey data sortBy)).map SNode.name
        = (API.aggregateForMatrix data sortBy).vendors) ∧
    ((agencyNodesOf (API.aggregateForSankey data sortBy)).map SNode.name
        = (API.aggregateForMatrix data sortBy).agencies) ∧
    ((vendorNodesOf (API.aggregateForSankey data sortBy)).map SNode.total
        = (API.aggregateForMatrix data sortBy).vendorTotals) ∧
    ((agencyNodesOf (API.aggregateForSankey data sortBy)).map SNode.total
        = (API.aggregateForMatrix data sortBy).agencyTotals) ∧
    (∀ l ∈ (API.aggregateForSankey data sortBy).links, ∀ i j,
      (API.aggregateForMatrix data sortBy).vendors[i]? = some l.vendor →
      (API.aggregateForMatrix data sortBy).agencies[j]? = some l.agency →
      cellAt (API.aggregateForMatrix data sortBy) i j = some ⟨l.value, l.count⟩) ∧
    (∀ i j v a, (API.aggregateForMatrix data sortBy).vendors[i]? = some v →
      (API.aggregateForMatrix data sortBy).agencies[j]? = some a →
      (∀ l ∈ (API.aggregateForSankey data sortBy).links, ¬(l.vendor = v ∧ l.agency = a)) →
      cellAt (API.aggregateForMatrix data sortBy) i j = some (⟨0, 0⟩ : Cell)) := by
  have hname : ∀ (tp pre : String) (l : List String) (tm : List (String × Rat)),
      (l.map (fun v => (⟨v, tp, pre ++ v, jsGet tm v⟩ : SNode))).map SNode.name = l := by
    intro tp pre l tm
    induction l with
    | nil => rfl
    | cons x xs ih => simp [ih]
  have htotal : ∀ (tp pre : String) (l : List String) (tm : List (String × Rat)),
      (l.map (fun v => (⟨v, tp, pre ++ v, jsGet tm v⟩ : SNode))).map SNode.total
        = l.map (fun v => jsGet tm v) := by
    intro tp pre l tm
    induction l with
    | nil => rfl
    | cons x xs ih => simp [ih]
  refine ⟨?_, ?_, ?_, ?_, ?_, ?_⟩
  · rw [vendorNodesOf_sankey, hname, vt_eq_vtm, vendorCounts_eq_vcm,
      aggregateForMatrix_vendors]
  · rw [agencyNodesOf_sankey, hname, ag_eq_agm, agencyCounts_eq_acm,
      aggregateForMatrix_agencies]
  · rw [vendorNodesOf_sankey, htotal, vt_eq_vtm, vendorCounts_eq_vcm,
      aggregateForMatrix_vendorTotals, aggregateForMatrix_vendors]
  · rw [agencyNodesOf_sankey, htotal, ag_eq_agm, agencyCounts_eq_acm,
      aggregateForMatrix_agencyTotals, aggregateForMatrix_agencies]
  · intro l hl i j hv ha
    rw [aggregateForSankey_links] at hl
    obtain ⟨⟨k, ld⟩, he, hle⟩ := List.mem_map.mp hl
    obtain ⟨hkey, hvmem, hamem⟩ := lm_inv data (k, ld) he
    subst hle
    simp only at hv ha ⊢
    rw [cellAt_eq data sortBy i j _ _ hv ha]
    rw [← hkey, mm_eq_lm_proj, jsGet_map_proj,
      jsGet_of_mem_nodup (nodup_keys_lm data) he]
    rfl
  · intro i j v a hv ha hno
    rw [cellAt_eq data sortBy i j v a hv ha]
    rw [mm_eq_lm_proj, jsGet_map_proj]
    cases hlk : jsGet (sankeyAccum data).lm (pairKey v a) with
    | none => rfl
    | some ld =>
      exfalso
      have hmem := mem_of_jsGet hlk
      obtain ⟨hkey, hvm, ham⟩ := lm_inv data (pairKey v a, ld) hmem
      have hbv : barFree v := by
        apply barFree_vendor_of_mem data h
        rw [← mem_vendors_iff data sortBy]
        exact List.getElem?_mem hv
      have hbl : barFree ld.vendor := by
        apply barFree_vendor_of_mem data h
        exact hvm
      obtain ⟨hveq, haeq⟩ := pairKey_inj hbv hbl hkey
      apply hno _ (by
        rw [aggregateForSankey_links]
        exact List.mem_map_of_mem _ hmem)
      constructor
      · simpa using hveq.symm
      · simpa using haeq.symm

/-! ## Lemmas: sums of the accumulated maps -/

theorem sum_ratFold (key : Record → String) (val : Record → Rat) :
    ∀ (data : List Record) (m0 : List (String × Rat)),
      ((data.foldl (fun m r => addRat m (key r) (val r)) m0).map (fun e => e.2)).sum
        = (m0.map (fun e => e.2)).sum + (data.map val).sum := by
  intro data
  induction data with
  | nil => intro m0; simp
  | cons r rest ih =>
    intro m0
    rw [List.foldl_cons, ih (addRat m0 (key r) (val r))]
    have h := sum_map_jsUpd m0 (key r) 0 (fun x => x + val r) (fun x => x) (val r)
      (fun v => rfl) rfl
    rw [addRat, h]
    simp [add_assoc]

theorem sum_cellFold :
    ∀ (data : List Record) (m0 : List (String × Cell)),
      ((data.foldl (fun m r => addCell m (vendorOf r) (agencyOf r) (amountOf r)) m0).map
          (fun e => e.2.amount)).sum
        = (m0.map (fun e => e.2.amount)).sum + (data.map amountOf).sum := by
  intro data
  induction data with
  | nil => intro m0; simp
  | cons r rest ih =>
    intro m0
    rw [List.foldl_cons, ih]
    have h := sum_map_jsUpd m0 (pairKey (vendorOf r) (agencyOf r)) (⟨0, 0⟩ : Cell)
      (fun c => ⟨c.amount + amountOf r, c.count + 1⟩) Cell.amount (amountOf r)
      (fun v => rfl) rfl
    rw [addCell, h]
    simp [add_assoc]

theorem sum_lmFold :
    ∀ (data : List Record) (m0 : List (String × LinkData)),
      ((data.foldl (fun m r => addLink m (vendorOf r) (agencyOf r) (amountOf r) r) m0).map
          (fun e => e.2.amount)).sum
        = (m0.map (fun e => e.2.amount)).sum + (data.map amountOf).sum := by
  intro data
  induction data with
  | nil => intro m0; simp
  | cons r rest ih =>
    intro m0
    rw [List.foldl_cons, ih]
    have h := sum_map_jsUpd m0 (pairKey (vendorOf r) (agencyOf r))
      (⟨vendorOf r, agencyOf r, 0, 0, []⟩ : LinkData)
      (fun l => ⟨l.vendor, l.agency, l.amount + amountOf r, l.count + 1, l.contracts ++ [r]⟩)
      LinkData.amount (amountOf r) (fun v => rfl) rfl
    rw [addLink, h]
    simp [add_assoc]

theorem sum_vtm (data : List Record) :
    ((matrixAccum data).vtm.map (fun e => e.2)).sum = recordAmountSum data := by
  rw [matrixAccum, matrix_foldl_vtm, sum_ratFold vendorOf amountOf data [], recordAmountSum]
  simp

theorem sum_mm (data : List Record) :
    ((matrixAccum data).mm.map (fun e => e.2.amount)).sum = recordAmountSum data := by
  rw [matrixAccum, matrix_foldl_mm, sum_cellFold data [], recordAmountSum]
  simp

theorem sum_lm (data : List Record) :
    ((sankeyAccum data).lm.map (fun e => e.2.amount)).sum = recordAmountSum data := by
  rw [sankeyAccum, sankey_foldl_lm, sum_lmFold data [], recordAmountSum]
  simp

theorem linkValueSum_eq (data : List Record) (sortBy : String) :
    linkValueSum (API.aggregateForSankey data sortBy) = recordAmountSum data := by
  rw [linkValueSum, aggregateForSankey_links, List.map_map]
  exact sum_lm data

/-! ## Lemmas: the matrix cell sum counts every bucket exactly once -/

theorem sum_map_split {α : Type} (K : List α) (f g : α → Rat) :
    (K.map (fun k => f k + g k)).sum = (K.map f).sum + (K.map g).sum := by
  induction K with
  | nil => simp
  | cons x K ih => simp only [List.map_cons, List.sum_cons, ih]; ring

theorem sum_map_ite_rat (K : List String) (k0 : String) (c : Rat) :
    (K.map (fun k => if k0 = k then c else 0)).sum = (K.count k0 : Rat) * c := by
  induction K with
  | nil => simp
  | cons x K ih =>
    by_cases hx : k0 = x
    · subst hx
      simp only [List.map_cons, List.sum_cons, if_pos rfl, ih, List.count_cons, beq_self_eq_true,
        if_true]
      push_cast
      ring
    · have hx2 : ¬ (x = k0) := fun hh => hx hh.symm
      simp only [List.map_cons, List.sum_cons, if_neg hx, ih, List.count_cons]
      simp [hx2]

theorem sum_map_ite_nat (K : List String) (k0 : String) (c : Nat) :
    (K.map (fun k => if k = k0 then c else 0)).sum = K.count k0 * c := by
  induction K with
  | nil => simp
  | cons x K ih =>
    by_cases hx : x = k0
    · subst hx
      simp only [List.map_cons, List.sum_cons, if_pos rfl, ih, List.count_cons, beq_self_eq_true,
        if_true]
      ring
    · simp only [List.map_cons, List.sum_cons, if_neg hx, ih, List.count_cons]
      simp [hx]

theorem sum_map_mulc (V : List String) (f : String → Nat) (c : Rat) :
    (V.map (fun v => (f v : Rat) * c)).sum = ((V.map f).sum : Rat) * c := by
  induction V with
  | nil => simp
  | cons x V ih =>
    simp only [List.map_cons, List.sum_cons, ih]
    push_cast
    ring

theorem sum_cells_of_unique (V A : List String) :
    ∀ (mm : List (String × Cell)), (mm.map Prod.fst).Nodup →
      (∀ k ∈ mm.map Prod.fst,
        (V.map (fun v => (A.map (fun a => pairKey v a)).count k)).sum = 1) →
      (V.map (fun v =>
          (A.map (fun a => ((jsGet mm (pairKey v a)).getD ⟨0, 0⟩).amount)).sum)).sum
        = (mm.map (fun e => e.2.amount)).sum := by
  intro mm
  induction mm with
  | nil => intro _ _; simp [jsGet]
  | cons e mm2 ih =>
    obtain ⟨k0, c0⟩ := e
    intro hnd hcount
    simp only [List.map_cons, List.nodup_cons] at hnd
    have hk0 : jsGet mm2 k0 = none := (jsGet_eq_none_iff mm2 k0).mpr hnd.1
    have hpoint : ∀ v a, ((jsGet ((k0, c0) :: mm2) (pairKey v a)).getD ⟨0, 0⟩).amount
        = (if k0 = pairKey v a then c0.amount else 0)
          + ((jsGet mm2 (pairKey v a)).getD ⟨0, 0⟩).amount := by
      intro v a
      by_cases hk : k0 = pairKey v a
      · rw [if_pos hk, ← hk]
        simp [jsGet, hk0]
      · rw [if_neg hk]
        simp [jsGet, hk]
    have hrow : ∀ v, (A.map (fun a => ((jsGet ((k0, c0) :: mm2) (pairKey v a)).getD
          ⟨0, 0⟩).amount)).sum
        = ((A.map (fun a => pairKey v a)).count k0 : Rat) * c0.amount
          + (A.map (fun a => ((jsGet mm2 (pairKey v a)).getD ⟨0, 0⟩).amount)).sum := by
      intro v
      have h1 : (A.map (fun a => ((jsGet ((k0, c0) :: mm2) (pairKey v a)).getD
          ⟨0, 0⟩).amount)).sum
          = (A.map (fun a => (if k0 = pairKey v a then c0.amount else 0)
              + ((jsGet mm2 (pairKey v a)).getD ⟨0, 0⟩).amount)).sum := by
        apply congrArg
        exact List.map_congr_left (fun a _ => hpoint v a)
      rw [h1, sum_map_split]
      have h2 : (A.map (fun a => if k0 = pairKey v a then c0.amount else 0)).sum
          = ((A.map (fun a => pairKey v a)).count k0 : Rat) * c0.amount := by
        rw [← sum_map_ite_rat (A.map (fun a => pairKey v a)) k0 c0.amount, List.map_map]
        rfl
      rw [h2]
    have houter : (V.map (fun v => (A.map (fun a =>
        ((jsGet ((k0, c0) :: mm2) (pairKey v a)).getD ⟨0, 0⟩).amount)).sum)).sum
        = (V.map (fun v => ((A.map (fun a => pairKey v a)).count k0 : Rat) * c0.amount)).sum
          + (V.map (fun v => (A.map (fun a =>
              ((jsGet mm2 (pairKey v a)).getD ⟨0, 0⟩).amount)).sum)).sum := by
      rw [← sum_map_split]
      apply congrArg
      exact List.map_congr_left (fun v _ => hrow v)
    rw [houter, sum_map_mulc, hcount k0 (List.mem_cons_self _ _),
      ih hnd.2 (fun k hk => hcount k (List.mem_cons_of_mem _ hk))]
    simp

theorem vendors_nodup (data : List Record) (sortBy : String) :
    (API.aggregateForMatrix data sortBy).vendors.Nodup := by
  rw [aggregateForMatrix_vendors]
  exact sortedEntities_nodup sortBy _ _ (keys_vcm_eq_keys_vtm data) (nodup_keys_vtm data)

theorem agencies_nodup (data : List Record) (sortBy : String) :
    (API.aggregateForMatrix data sortBy).agencies.Nodup := by
  rw [aggregateForMatrix_agencies]
  exact sortedEntities_nodup sortBy _ _ (keys_acm_eq_keys_agm data) (nodup_keys_agm data)

theorem countPairs_one (data : List Record) (sortBy : String)
    (hbar : ∀ r ∈ data, barFree (vendorOf r) ∧ barFree (agencyOf r)) :
    ∀ k ∈ (matrixAccum data).mm.map Prod.fst,
      ((API.aggregateForMatrix data sortBy).vendors.map (fun v =>
        ((API.aggregateForMatrix data sortBy).agencies.map
          (fun a => pairKey v a)).count k)).sum = 1 := by
  intro k hk
  rw [mm_eq_lm_proj, keys_map_proj] at hk
  obtain ⟨⟨k2, ld⟩, hmem, hfst⟩ := List.mem_map.mp hk
  obtain ⟨hkey, hvm, ham⟩ := lm_inv data (k2, ld) hmem
  have hvV : ld.vendor ∈ (API.aggregateForMatrix data sortBy).vendors :=
    (mem_vendors_iff data sortBy _).mpr hvm
  have haA : ld.agency ∈ (API.aggregateForMatrix data sortBy).agencies :=
    (mem_agencies_iff data sortBy _).mpr ham
  have hbarv : barFree ld.vendor := barFree_vendor_of_mem data hbar hvm
  have hk2 : k = pairKey ld.vendor ld.agency := by rw [← hfst]; exact hkey
  have hinner : ∀ v ∈ (API.aggregateForMatrix data sortBy).vendors,
      ((API.aggregateForMatrix data sortBy).agencies.map (fun a => pairKey v a)).count k
        = if v = ld.vendor
          then (API.aggregateForMatrix data sortBy).agencies.count ld.agency else 0 := by
    intro v hv
    by_cases hveq : v = ld.vendor
    · subst hveq
      rw [if_pos rfl, hk2]
      exact List.count_map_of_injective _ (pairKey ld.vendor)
        (fun a1 a2 hx => pairKey_right_inj hx) _
    · rw [if_neg hveq, List.count_eq_zero]
      intro hmem2
      obtain ⟨a, _, hpa⟩ := List.mem_map.mp hmem2
      have hbv : barFree v :=
        barFree_vendor_of_mem data hbar ((mem_vendors_iff data sortBy v).mp hv)
      exact hveq (pairKey_inj hbv hbarv (hpa.trans hk2)).1
  rw [List.map_congr_left hinner, sum_map_ite_nat,
    List.count_eq_one_of_mem (vendors_nodup data sortBy) hvV,
    List.count_eq_one_of_mem (agencies_nodup data sortBy) haA]

theorem matrixAmountSum_eq (data : List Record) (sortBy : String)
    (hbar : ∀ r ∈ data, barFree (vendorOf r) ∧ barFree (agencyOf r)) :
    matrixAmountSum (API.aggregateForMatrix data sortBy) = recordAmountSum data := by
  have hshape : matrixAmountSum (API.aggregateForMatrix data sortBy)
      = ((API.aggregateForMatrix data sortBy).vendors.map (fun v =>
          ((API.aggregateForMatrix data sortBy).agencies.map (fun a =>
            ((jsGet (matrixAccum data).mm (pairKey v a)).getD ⟨0, 0⟩).amount)).sum)).sum := by
    rw [matrixAmountSum, aggregateForMatrix_matrix, List.map_map]
    apply congrArg
    apply List.map_congr_left
    intro v _
    rw [Function.comp_apply, List.map_map]
    rfl
  rw [hshape,
    sum_cells_of_unique _ _ _ (nodup_keys_mm data) (countPairs_one data sortBy hbar),
    sum_mm]

/-- C2 (amended): for every record collection whose vendor and agency names
stay clear of the `'|'` delimiter character, and every sort key, the sum of
edge values of the graph projection, the sum of `contract_amount` over the
records, and the sum of cell amounts of the matrix projection are all equal
(exactly: amounts are modelled as rationals, so the floating-point tolerance
of the claim is 0 here).  The edge sum equals the record sum for arbitrary
names; only the matrix cell sum needs the delimiter condition. -/
theorem aggregate_sums_agree (data : List Record) (sortBy : String)
    (h : ∀ r ∈ data, barFree (vendorOf r) ∧ barFree (agencyOf r)) :
    linkValueSum (API.aggregateForSankey data sortBy) = recordAmountSum data ∧
    matrixAmountSum (API.aggregateForMatrix data sortBy) = recordAmountSum data :=
  ⟨linkValueSum_eq data sortBy, matrixAmountSum_eq data sortBy h⟩

/-! ## Lemmas: windowing keeps the top of the active order -/

theorem sorted_take_drop {α : Type} (r : α → α → Prop) (l : List α) (n : Nat)
    (h : List.Sorted r l) : ∀ x ∈ l.take n, ∀ y ∈ l.drop n, r x y := by
  have h3 : List.Pairwise r (l.take n ++ l.drop n) := by
    rw [List.take_append_drop]
    exact h
  exact (List.pairwise_append.mp h3).2.2

theorem sortLinks_sorted (links : List SLink) :
    List.Sorted linkLe (SankeyChart.sortLinks links) :=
  List.sorted_insertionSort linkLe links

theorem sortedEntities_amount_desc (totals : List (String × Rat))
    (counts : List (String × Nat)) :
    sortedEntities "amount-desc" totals counts
      = (totals.insertionSort (amtLe (-1))).map Prod.fst := by
  have hf : sortField "amount-desc" = "amount" := by decide
  have hm : multiplier "amount-desc" = (-1 : Int) := by decide
  simp only [sortedEntities, hf, hm, if_true]

theorem vendorTotals_pairwise_desc (data : List Record) :
    List.Pairwise (fun x y : Option Rat => y.getD 0 ≤ x.getD 0)
      (API.aggregateForMatrix data "amount-desc").vendorTotals := by
  rw [aggregateForMatrix_vendorTotals, aggregateForMatrix_vendors,
    sortedEntities_amount_desc]
  rw [List.map_map, List.pairwise_map]
  have hsorted : List.Sorted (amtLe (-1)) ((matrixAccum data).vtm.insertionSort (amtLe (-1))) :=
    List.sorted_insertionSort (amtLe (-1)) _
  apply List.Pairwise.imp_of_mem ?_ hsorted
  intro e1 e2 h1 h2 hr
  have hm1 : jsGet (matrixAccum data).vtm e1.1 = some e1.2 :=
    jsGet_of_mem_nodup (nodup_keys_vtm data)
      ((List.perm_insertionSort (amtLe (-1)) _).subset h1)
  have hm2 : jsGet (matrixAccum data).vtm e2.1 = some e2.2 :=
    jsGet_of_mem_nodup (nodup_keys_vtm data)
      ((List.perm_insertionSort (amtLe (-1)) _).subset h2)
  simp only [Function.comp_apply, hm1, hm2, Option.getD_some]
  unfold amtLe at hr
  push_cast at hr
  linarith

theorem agencyTotals_pairwise_desc (data : List Record) :
    List.Pairwise (fun x y : Option Rat => y.getD 0 ≤ x.getD 0)
      (API.aggregateForMatrix data "amount-desc").agencyTotals := by
  rw [aggregateForMatrix_agencyTotals, aggregateForMatrix_agencies,
    sortedEntities_amount_desc]
  rw [List.map_map, List.pairwise_map]
  have hsorted : List.Sorted (amtLe (-1)) ((matrixAccum data).agm.insertionSort (amtLe (-1))) :=
    List.sorted_insertionSort (amtLe (-1)) _
  apply List.Pairwise.imp_of_mem ?_ hsorted
  intro e1 e2 h1 h2 hr
  have hm1 : jsGet (matrixAccum data).agm e1.1 = some e1.2 :=
    jsGet_of_mem_nodup (nodup_keys_agm data)
      ((List.perm_insertionSort (amtLe (-1)) _).subset h1)
  have hm2 : jsGet (matrixAccum data).agm e2.1 = some e2.2 :=
    jsGet_of_mem_nodup (nodup_keys_agm data)
      ((List.perm_insertionSort (amtLe (-1)) _).subset h2)
  simp only [Function.comp_apply, hm1, hm2, Option.getD_some]
  unfold amtLe at hr
  push_cast at hr
  linarith

theorem window_rows_ge_dropped (T : List (Option Rat)) (V : List String) (n : Nat)
    (hpw : List.Pairwise (fun x y : Option Rat => y.getD 0 ≤ x.getD 0) T) :
    ∀ p ∈ (V.take n).enum, ∀ j y, n ≤ j → T[j]? = some y →
      y.getD 0 ≤ ((T.get? p.1).getD none).getD 0 := by
  intro p hp j y hnj hjy
  obtain ⟨i, v⟩ := p
  have hi := (List.mem_enum hp).1
  have hin : i < n := lt_of_lt_of_le hi (List.length_take_le n V)
  have hjlen : j < T.length := by
    by_contra hh
    rw [List.getElem?_eq_none (le_of_not_lt hh)] at hjy
    cases hjy
  have hij : i < j := lt_of_lt_of_le hin hnj
  have hilen : i < T.length := lt_trans hij hjlen
  have hR := (List.pairwise_iff_get.mp hpw) ⟨i, hilen⟩ ⟨j, hjlen⟩ (Fin.mk_lt_mk.mpr hij)
  have hy : T.get ⟨j, hjlen⟩ = y := by
    have h2 := List.getElem?_eq_getElem hjlen
    rw [h2] at hjy
    rw [List.get_eq_getElem]
    exact Option.some.inj hjy
  have hi2 : (T.get? i).getD none = T.get ⟨i, hilen⟩ := by
    rw [List.get?_eq_get hilen]
    rfl
  rw [hi2, ← hy]
  exact hR

/-- C3 (amended): the graph edge view keeps at most 100 buckets and selects
them by descending summed amount regardless of the user's sort key; the
matrix view keeps the first 50 vendors and 30 agencies of the user-selected
order, so its kept entities are the highest by total amount when the sort key
is `"amount-desc"` (and, per the counterexample, not in general). -/
theorem windowing_selection (data : List Record) (sortBy : String) :
    ((SankeyChart.topLinks (API.aggregateForSankey data sortBy).links).length ≤ 100) ∧
    (∀ a ∈ SankeyChart.topLinks (API.aggregateForSankey data sortBy).links,
      ∀ b ∈ (SankeyChart.sortLinks (API.aggregateForSankey data sortBy).links).drop 100,
        b.value ≤ a.value) ∧
    (∀ row ∈ MatrixChart.vendorOrderOf (API.aggregateForMatrix data "amount-desc"),
      ∀ j y, 50 ≤ j →
        (API.aggregateForMatrix data "amount-desc").vendorTotals[j]? = some y →
        y.getD 0 ≤ row.total.getD 0) ∧
    (∀ row ∈ MatrixChart.agencyOrderOf (API.aggregateForMatrix data "amount-desc"),
      ∀ j y, 30 ≤ j →
        (API.aggregateForMatrix data "amount-desc").agencyTotals[j]? = some y →
        y.getD 0 ≤ row.total.getD 0) := by
  refine ⟨?_, ?_, ?_, ?_⟩
  · exact List.length_take_le 100 _
  · intro a ha b hb
    have h := sorted_take_drop linkLe (SankeyChart.sortLinks
      (API.aggregateForSankey data sortBy).links) 100
      (sortLinks_sorted _) a ha b hb
    unfold linkLe at h
    linarith
  · intro row hrow j y hj50 hjy
    rw [MatrixChart.vendorOrderOf] at hrow
    obtain ⟨p, hp, hrq⟩ := List.mem_map.mp hrow
    have h := window_rows_ge_dropped
      (API.aggregateForMatrix data "amount-desc").vendorTotals
      (API.aggregateForMatrix data "amount-desc").vendors 50
      (vendorTotals_pairwise_desc data) p hp j y hj50 hjy
    rw [← hrq] at *
    exact h
  · intro row hrow j y hj30 hjy
    rw [MatrixChart.agencyOrderOf] at hrow
    obtain ⟨p, hp, hrq⟩ := List.mem_map.mp hrow
    have h := window_rows_ge_dropped
      (API.aggregateForMatrix data "amount-desc").agencyTotals
      (API.aggregateForMatrix data "amount-desc").agencies 30
      (agencyTotals_pairwise_desc data) p hp j y hj30 hjy
    rw [← hrq] at *
    exact h

/-! ## Lemmas: displayed totals are unwindowed rollups -/

theorem vendorOrder_total (data : List Record) (sortBy : String) :
    ∀ row ∈ MatrixChart.vendorOrderOf (API.aggregateForMatrix data sortBy),
      row.total = some (((data.filter (fun r => vendorOf r = row.name)).map amountOf).sum) := by
  intro row hrow
  rw [MatrixChart.vendorOrderOf] at hrow
  obtain ⟨⟨i, v⟩, hp, hrq⟩ := List.mem_map.mp hrow
  obtain ⟨hi, hv⟩ := List.mem_enum hp
  have hiv : i < (API.aggregateForMatrix data sortBy).vendors.length := by
    rw [List.length_take] at hi
    exact lt_of_lt_of_le hi (Nat.min_le_right _ _)
  have hvv : v = (API.aggregateForMatrix data sortBy).vendors[i] := by
    rw [hv, List.getElem_take]
  have htot : (((API.aggregateForMatrix data sortBy).vendorTotals.get? i).getD none)
      = jsGet (matrixAccum data).vtm v := by
    rw [aggregateForMatrix_vendorTotals, List.get?_map, List.get?_eq_get hiv]
    rw [List.get_eq_getElem, ← hvv]
    rfl
  have hmem : v ∈ data.map vendorOf := by
    rw [← mem_vendors_iff data sortBy, hvv]
    exact List.getElem_mem hiv
  rw [← hrq]
  dsimp only
  rw [htot, jsGet_vtm, if_pos hmem]

theorem agencyOrder_total (data : List Record) (sortBy : String) :
    ∀ row ∈ MatrixChart.agencyOrderOf (API.aggregateForMatrix data sortBy),
      row.total = some (((data.filter (fun r => agencyOf r = row.name)).map amountOf).sum) := by
  intro row hrow
  rw [MatrixChart.agencyOrderOf] at hrow
  obtain ⟨⟨i, a⟩, hp, hrq⟩ := List.mem_map.mp hrow
  obtain ⟨hi, hv⟩ := List.mem_enum hp
  have hiv : i < (API.aggregateForMatrix data sortBy).agencies.length := by
    rw [List.length_take] at hi
    exact lt_of_lt_of_le hi (Nat.min_le_right _ _)
  have hvv : a = (API.aggregateForMatrix data sortBy).agencies[i] := by
    rw [hv, List.getElem_take]
  have htot : (((API.aggregateForMatrix data sortBy).agencyTotals.get? i).getD none)
      = jsGet (matrixAccum data).agm a := by
    rw [aggregateForMatrix_agencyTotals, List.get?_map, List.get?_eq_get hiv]
    rw [List.get_eq_getElem, ← hvv]
    rfl
  have hmem : a ∈ data.map agencyOf := by
    rw [← mem_agencies_iff data sortBy, hvv]
    exact List.getElem_mem hiv
  rw [← hrq]
  dsimp only
  rw [htot, jsGet_agm, if_pos hmem]

theorem sum_lookup_over_vendors (data : List Record) (sortBy : String) :
    (((API.aggregateForMatrix data sortBy).vendors).map
      (fun v => ((jsGet (matrixAccum data).vtm v).getD 0 : Rat))).sum
      = recordAmountSum data := by
  have hperm : (API.aggregateForMatrix data sortBy).vendors.Perm
      ((matrixAccum data).vtm.map Prod.fst) := by
    rw [aggregateForMatrix_vendors]
    exact sortedEntities_perm sortBy _ _ (keys_vcm_eq_keys_vtm data)
  have hperm2 := hperm.map (fun v => ((jsGet (matrixAccum data).vtm v).getD 0 : Rat))
  rw [hperm2.sum_eq, List.map_map]
  have hpt : ∀ e ∈ (matrixAccum data).vtm,
      ((fun v => ((jsGet (matrixAccum data).vtm v).getD 0 : Rat)) ∘ Prod.fst) e = e.2 := by
    intro e he
    obtain ⟨k, val⟩ := e
    simp only [Function.comp_apply]
    rw [jsGet_of_mem_nodup (nodup_keys_vtm data) he]
    rfl
  rw [List.map_congr_left hpt, sum_vtm]

theorem grandTotal_eq (data : List Record) (sortBy : String)
    (hlen : (API.aggregateForMatrix data sortBy).vendors.length ≤ 50) :
    MatrixChart.grandTotalOf (API.aggregateForMatrix data sortBy)
      = recordAmountSum data := by
  rw [MatrixChart.grandTotalOf, MatrixChart.vendorOrderOf, List.take_of_length_le hlen,
    List.map_map]
  have hpt : ∀ p ∈ (API.aggregateForMatrix data sortBy).vendors.enum,
      ((fun r : EntityRow => r.total.getD 0) ∘ (fun p : Nat × String =>
        (⟨p.2, ((API.aggregateForMatrix data sortBy).vendorTotals.get? p.1).getD none,
          p.1⟩ : EntityRow))) p
        = ((fun v => ((jsGet (matrixAccum data).vtm v).getD 0 : Rat)) ∘ Prod.snd) p := by
    intro p hp
    obtain ⟨i, v⟩ := p
    obtain ⟨hi, hv⟩ := List.mem_enum hp
    simp only [Function.comp_apply]
    have htot : (((API.aggregateForMatrix data sortBy).vendorTotals.get? i).getD none)
        = jsGet (matrixAccum data).vtm v := by
      rw [aggregateForMatrix_vendorTotals, List.get?_map, List.get?_eq_get hi]
      rw [List.get_eq_getElem, ← hv]
      rfl
    rw [htot]
  rw [List.map_congr_left hpt, ← List.map_map, List.enum_map_snd]
  exact sum_lookup_over_vendors data sortBy

/-- C4 (amended): the header statistics and the matrix view row and column
totals are computed over the unwindowed filtered set; the matrix grand total
sums the totals of the kept (at most 50) vendor rows, so it equals the
unwindowed filtered total exactly when at most 50 vendors survive filtering
(and, per the counterexample, not with 51). -/
theorem totals_unwindowed (st : FilterState) (data : List Record)
    (hlen : (API.aggregateForMatrix (Filters.applyFilters st data)
      st.sortBy).vendors.length ≤ 50) :
    ((App.headerStats st data).1 = (Filters.applyFilters st data).length ∧
      (App.headerStats st data).2 = recordAmountSum (Filters.applyFilters st data)) ∧
    (∀ row ∈ MatrixChart.vendorOrderOf
        (API.aggregateForMatrix (Filters.applyFilters st data) st.sortBy),
      row.total = some ((((Filters.applyFilters st data).filter
        (fun r => vendorOf r = row.name)).map amountOf).sum)) ∧
    (∀ row ∈ MatrixChart.agencyOrderOf
        (API.aggregateForMatrix (Filters.applyFilters st data) st.sortBy),
      row.total = some ((((Filters.applyFilters st data).filter
        (fun r => agencyOf r = row.name)).map amountOf).sum)) ∧
    MatrixChart.grandTotalOf
        (API.aggregateForMatrix (Filters.applyFilters st data) st.sortBy)
      = recordAmountSum (Filters.applyFilters st data) := by
  refine ⟨⟨rfl, rfl⟩, ?_, ?_, ?_⟩
  · exact vendorOrder_total (Filters.applyFilters st data) st.sortBy
  · exact agencyOrder_total (Filters.applyFilters st data) st.sortBy
  · exact grandTotal_eq (Filters.applyFilters st data) st.sortBy hlen

/-! ## Lemmas: pagination bound and stopping -/

theorem fetchAllGo_len_le (pageAt : Nat → List RawRecord)
    (hpage : ∀ o, (pageAt o).length ≤ 10000) :
    ∀ fuel offset, offset ≤ 100000 →
      (API.fetchAllGo pageAt offset fuel).length ≤ 110000 - offset := by
  intro fuel
  induction fuel with
  | zero => intro offset h; simp [API.fetchAllGo]
  | succ fuel ih =>
    intro offset hoff
    simp only [API.fetchAllGo]
    by_cases h0 : (pageAt offset).length = 0
    · rw [if_pos h0]; simp
    · rw [if_neg h0]
      by_cases h1 : 100000 < offset + 10000
      · rw [if_pos h1]
        have := hpage offset
        omega
      · rw [if_neg h1]
        by_cases h2 : (pageAt offset).length < 10000
        · rw [if_pos h2]
          have := hpage offset
          omega
        · rw [if_neg h2, List.length_append]
          have hrec := ih (offset + 10000) (by omega)
          have := hpage offset
          omega

/-- C5 (amended): against any page oracle honouring the 10000-row page size,
`fetchAll` terminates with at most 110000 rows — one full page beyond the
claimed 100000 cap, because the guard runs only after a page is pushed — and
it stops immediately on an empty first page and after a short first page. -/
theorem fetchAll_bounds (pageAt : Nat → List RawRecord)
    (hpage : ∀ o, (pageAt o).length ≤ 10000) :
    (API.fetchAll pageAt).length ≤ 110000 ∧
    ((pageAt 0).length = 0 → API.fetchAll pageAt = []) ∧
    (0 < (pageAt 0).length → (pageAt 0).length < 10000 →
      API.fetchAll pageAt = API.processData (pageAt 0)) := by
  refine ⟨?_, ?_, ?_⟩
  · have h := fetchAllGo_len_le pageAt hpage 11 0 (by omega)
    rw [API.fetchAll, API.processData, List.length_map, API.fetchAllLoop]
    omega
  · intro h0
    rw [API.fetchAll, API.fetchAllLoop, show (11 : Nat) = 10 + 1 from rfl]
    simp only [API.fetchAllGo]
    rw [if_pos h0]
    rfl
  · intro hpos hshort
    rw [API.fetchAll, API.fetchAllLoop, show (11 : Nat) = 10 + 1 from rfl]
    simp only [API.fetchAllGo]
    rw [if_neg (by omega), if_neg (by omega), if_pos hshort]

/-! ## Lemmas: the node index resolves every bucket endpoint -/

theorem jsGet_idxMapFrom_bounds (pre : String) :
    ∀ (l : List String) (n : Nat) (k : String) (i : Nat),
      jsGet (idxMapFrom pre n l) k = some i → n ≤ i ∧ i < n + l.length := by
  intro l
  induction l with
  | nil => intro n k i h; simp [idxMapFrom, jsGet] at h
  | cons v rest ih =>
    intro n k i h
    simp only [idxMapFrom, jsGet] at h
    by_cases hk : pre ++ v = k
    · rw [if_pos hk] at h
      have h2 : n = i := Option.some.inj h
      subst h2
      simp only [List.length_cons]
      omega
    · rw [if_neg hk] at h
      have h2 := ih (n + 1) k i h
      simp only [List.length_cons]
      omega

theorem jsGet_idxMapFrom_mem (pre : String) :
    ∀ (l : List String) (n : Nat) (v : String), v ∈ l →
      ∃ i, jsGet (idxMapFrom pre n l) (pre ++ v) = some i := by
  intro l
  induction l with
  | nil => intro n v hv; simp at hv
  | cons v0 rest ih =>
    intro n v hv
    by_cases hk : pre ++ v0 = pre ++ v
    · exact ⟨n, by simp [idxMapFrom, jsGet, hk]⟩
    · have hvr : v ∈ rest := by
        rcases List.mem_cons.mp hv with h | h
        · exact absurd (by rw [h]) hk
        · exact h
      obtain ⟨i, hi⟩ := ih (n + 1) v hvr
      exact ⟨i, by simp [idxMapFrom, jsGet, hk, hi]⟩

theorem jsGet_idxMapFrom_none (pre : String) :
    ∀ (l : List String) (n : Nat) (k : String), (∀ v ∈ l, pre ++ v ≠ k) →
      jsGet (idxMapFrom pre n l) k = none := by
  intro l
  induction l with
  | nil => intro n k _; rfl
  | cons v0 rest ih =>
    intro n k h
    simp only [idxMapFrom, jsGet]
    rw [if_neg (h v0 (List.mem_cons_self _ _))]
    exact ih (n + 1) k (fun v hv => h v (List.mem_cons_of_mem _ hv))

theorem vendor_agency_key_ne (v a : String) : ("vendor:" ++ v) ≠ ("agency:" ++ a) := by
  intro h
  have h1 : ("vendor:" ++ v).data.head? = some 'v' := by
    rw [String.data_append]; rfl
  have h2 : ("agency:" ++ a).data.head? = some 'a' := by
    rw [String.data_append]; rfl
  rw [h, h2] at h1
  exact absurd (Option.some.inj h1) (by decide)

theorem nodeIndex_vendor_some (sv sa : List String) (v : String) (hv : v ∈ sv) :
    ∃ i, jsGet (sankeyNodeIndex sv sa) ("vendor:" ++ v) = some i
      ∧ i < sv.length + sa.length := by
  obtain ⟨i, hi⟩ := jsGet_idxMapFrom_mem "vendor:" sv 0 v hv
  refine ⟨i, ?_, ?_⟩
  · rw [sankeyNodeIndex]
    exact jsGet_append_of_some _ hi
  · have h := jsGet_idxMapFrom_bounds "vendor:" sv 0 _ _ hi
    omega

theorem nodeIndex_agency_some (sv sa : List String) (a : String) (ha : a ∈ sa) :
    ∃ i, jsGet (sankeyNodeIndex sv sa) ("agency:" ++ a) = some i
      ∧ i < sv.length + sa.length := by
  have hnone : jsGet (idxMapFrom "vendor:" 0 sv) ("agency:" ++ a) = none :=
    jsGet_idxMapFrom_none "vendor:" sv 0 _ (fun v _ => vendor_agency_key_ne v a)
  obtain ⟨i, hi⟩ := jsGet_idxMapFrom_mem "agency:" sa sv.length a ha
  refine ⟨i, ?_, ?_⟩
  · rw [sankeyNodeIndex, jsGet_append_of_none _ hnone]
    exact hi
  · have h := jsGet_idxMapFrom_bounds "agency:" sa sv.length _ _ hi
    omega

theorem sankeyNodes_length (sv sa : List String) (vt ag : List (String × Rat)) :
    (sankeyNodes sv sa vt ag).length = sv.length + sa.length := by
  simp [sankeyNodes]

theorem keys_vendorCounts_eq (data : List Record) :
    (vendorCounts data).map Prod.fst = (sankeyAccum data).vt.map Prod.fst := by
  rw [vendorCounts_eq_vcm, vt_eq_vtm, keys_vcm_eq_keys_vtm]

theorem keys_agencyCounts_eq (data : List Record) :
    (agencyCounts data).map Prod.fst = (sankeyAccum data).ag.map Prod.fst := by
  rw [agencyCounts_eq_acm, ag_eq_agm, keys_acm_eq_keys_agm]

theorem links_endpoints (data : List Record) (sortBy : String) :
    ∀ l ∈ (API.aggregateForSankey data sortBy).links,
      ∃ i j, l.source = some i ∧ l.target = some j ∧
        i < (API.aggregateForSankey data sortBy).nodes.length ∧
        j < (API.aggregateForSankey data sortBy).nodes.length := by
  intro l hl
  rw [aggregateForSankey_links] at hl
  obtain ⟨⟨k, ld⟩, he, hle⟩ := List.mem_map.mp hl
  obtain ⟨hkey, hvm, ham⟩ := lm_inv data (k, ld) he
  have hsv : ld.vendor ∈ sortedEntities sortBy (sankeyAccum data).vt (vendorCounts data) := by
    rw [sortedEntities_mem sortBy _ _ (keys_vendorCounts_eq data)]
    have hkk : (sankeyAccum data).vt.map Prod.fst = (matrixAccum data).vtm.map Prod.fst := by
      rw [vt_eq_vtm]
    rw [hkk, mem_keys_vtm]
    exact hvm
  have hsa : ld.agency ∈ sortedEntities sortBy (sankeyAccum data).ag (agencyCounts data) := by
    rw [sortedEntities_mem sortBy _ _ (keys_agencyCounts_eq data)]
    have hkk : (sankeyAccum data).ag.map Prod.fst = (matrixAccum data).agm.map Prod.fst := by
      rw [ag_eq_agm]
    rw [hkk, mem_keys_agm]
    exact ham
  obtain ⟨i, hsome, hlt⟩ := nodeIndex_vendor_some _ _ ld.vendor hsv
  obtain ⟨j, hsome2, hlt2⟩ := nodeIndex_agency_some
    (sortedEntities sortBy (sankeyAccum data).vt (vendorCounts data)) _ ld.agency hsa
  refine ⟨i, j, ?_, ?_, ?_, ?_⟩
  · rw [← hle]; exact hsome
  · rw [← hle]; exact hsome2
  · rw [aggregateForSankey_nodes, sankeyNodes_length]; exact hlt
  · rw [aggregateForSankey_nodes, sankeyNodes_length]; exact hlt2

/-! ## Lemmas: the rebuild pass of the graph windowing -/

theorem jsUpd_keys_lt (nm : List (Nat × Nat)) (k v : Nat)
    (h : ∀ e ∈ nm, e.1 < k) :
    ∀ e ∈ jsUpd nm k v (fun _ => v), e.1 < k + 1 := by
  intro e he
  rcases mem_jsUpd_cases he with hm | ⟨v0, hv0, _⟩
  · exact Nat.lt_succ_of_lt (h e hm)
  · rw [hv0]
    simp

theorem rebuildAux_nm_lookup (used : List (Option Nat)) :
    ∀ (ns : List SNode) (k : Nat) (acc : List (Nat × Nat) × List SankeyChart.FNode),
      (∀ e ∈ acc.1, e.1 < k) →
      ∀ i, i < k → jsGet (SankeyChart.rebuildAux used ns k acc).1 i = jsGet acc.1 i := by
  intro ns
  induction ns with
  | nil => intro k acc _ i _; rfl
  | cons n rest ih =>
    intro k acc hks i hik
    obtain ⟨nm, fns⟩ := acc
    simp only [SankeyChart.rebuildAux]
    by_cases hu : some k ∈ used
    · rw [if_pos hu]
      rw [ih (k + 1) _ (jsUpd_keys_lt nm k fns.length hks) i (by omega)]
      exact jsGet_jsUpd_ne nm k i _ _ (by omega)
    · rw [if_neg hu]
      exact ih (k + 1) _ (fun e he => Nat.lt_succ_of_lt (hks e he)) i (by omega)

theorem rebuildAux_nm_total (used : List (Option Nat)) :
    ∀ (ns : List SNode) (k : Nat) (acc : List (Nat × Nat) × List SankeyChart.FNode),
      (∀ e ∈ acc.1, e.1 < k) →
      ∀ i, k ≤ i → i < k + ns.length → some i ∈ used →
        (jsGet (SankeyChart.rebuildAux used ns k acc).1 i).isSome := by
  intro ns
  induction ns with
  | nil => intro k acc _ i h1 h2 _; simp only [List.length_nil] at h2; omega
  | cons n rest ih =>
    intro k acc hks i h1 h2 h3
    obtain ⟨nm, fns⟩ := acc
    simp only [SankeyChart.rebuildAux]
    by_cases hu : some k ∈ used
    · rw [if_pos hu]
      by_cases hik : i = k
      · subst hik
        rw [rebuildAux_nm_lookup used rest (i + 1) _
          (jsUpd_keys_lt nm i fns.length hks) i (by omega)]
        rw [jsGet_jsUpd_self]
        rfl
      · refine ih (k + 1) _ (jsUpd_keys_lt nm k fns.length hks) i (by omega) ?_ h3
        simp only [List.length_cons] at h2
        omega
    · rw [if_neg hu]
      by_cases hik : i = k
      · subst hik
        exact absurd h3 hu
      · refine ih (k + 1) _ (fun e he => Nat.lt_succ_of_lt (hks e he)) i (by omega) ?_ h3
        simp only [List.length_cons] at h2
        omega

theorem rebuildAux_fns_spec (used : List (Option Nat)) :
    ∀ (ns : List SNode) (k : Nat) (acc : List (Nat × Nat) × List SankeyChart.FNode),
      (∀ e ∈ acc.1, e.1 < k) →
      ∀ fn ∈ (SankeyChart.rebuildAux used ns k acc).2,
        fn ∈ acc.2 ∨ ∃ i, k ≤ i ∧ some i ∈ used ∧
          jsGet (SankeyChart.rebuildAux used ns k acc).1 i = some fn.index := by
  intro ns
  induction ns with
  | nil => intro k acc _ fn hfn; exact Or.inl hfn
  | cons n rest ih =>
    intro k acc hks fn hfn
    obtain ⟨nm, fns⟩ := acc
    simp only [SankeyChart.rebuildAux] at hfn ⊢
    by_cases hu : some k ∈ used
    · rw [if_pos hu] at hfn ⊢
      have hkeys2 := jsUpd_keys_lt nm k fns.length hks
      rcases ih (k + 1) _ hkeys2 fn hfn with hin | ⟨i, hki, hiu, hlook⟩
      · rcases List.mem_append.mp hin with h1 | h1
        · exact Or.inl h1
        · right
          refine ⟨k, le_refl k, hu, ?_⟩
          rw [rebuildAux_nm_lookup used rest (k + 1) _ hkeys2 k (by omega)]
          rw [jsGet_jsUpd_self]
          have hfneq : fn = ⟨n, fns.length⟩ := by simpa using h1
          rw [hfneq]
      · exact Or.inr ⟨i, by omega, hiu, hlook⟩
    · rw [if_neg hu] at hfn ⊢
      rcases ih (k + 1) _ (fun e he => Nat.lt_succ_of_lt (hks e he)) fn hfn with
        hin | ⟨i, hki, hiu, hlook⟩
      · exact Or.inl hin
      · exact Or.inr ⟨i, by omega, hiu, hlook⟩

theorem mem_used_iff (tls : List SLink) (i : Nat) :
    some i ∈ SankeyChart.usedNodeIndices tls ↔
      ∃ tl ∈ tls, tl.source = some i ∨ tl.target = some i := by
  rw [SankeyChart.usedNodeIndices, List.mem_flatMap]
  constructor
  · rintro ⟨l, hl, hmem⟩
    rcases List.mem_cons.mp hmem with h | h
    · exact ⟨l, hl, Or.inl h.symm⟩
    · have h2 : some i = l.target := by simpa using h
      exact ⟨l, hl, Or.inr h2.symm⟩
  · rintro ⟨l, hl, h | h⟩
    · exact ⟨l, hl, by simp [h]⟩
    · exact ⟨l, hl, by simp [h]⟩

theorem topLinks_subset (links : List SLink) :
    ∀ l ∈ SankeyChart.topLinks links, l ∈ links := by
  intro l hl
  have h1 : l ∈ SankeyChart.sortLinks links := List.mem_of_mem_take hl
  exact (List.perm_insertionSort linkLe links).subset h1

theorem window_def (S : SankeyOut) :
    SankeyChart.window S =
      ((SankeyChart.rebuild (SankeyChart.usedNodeIndices (SankeyChart.topLinks S.links))
          S.nodes).2,
        SankeyChart.remapLinks
          (SankeyChart.rebuild (SankeyChart.usedNodeIndices (SankeyChart.topLinks S.links))
            S.nodes).1
          (SankeyChart.topLinks S.links)) := rfl

/-- C6: for every input collection and sort key, the windowed graph view
keeps at most 100 edges, and every node it keeps is the source or target of
at least one kept edge. -/
theorem sankey_window_bounds (data : List Record) (sortBy : String) :
    ((SankeyChart.window (API.aggregateForSankey data sortBy)).2.length ≤ 100) ∧
    (∀ fn ∈ (SankeyChart.window (API.aggregateForSankey data sortBy)).1,
      ∃ l ∈ (SankeyChart.window (API.aggregateForSankey data sortBy)).2,
        l.source = some fn.index ∨ l.target = some fn.index) := by
  rw [window_def]
  dsimp only
  simp only [SankeyChart.rebuild]
  constructor
  · refine le_trans (List.length_filter_le _ _) ?_
    rw [List.length_map]
    exact List.length_take_le _ _
  · intro fn hfn
    have hkeys0 : ∀ e ∈ ([] : List (Nat × Nat)), e.1 < 0 := by simp
    rcases rebuildAux_fns_spec
        (SankeyChart.usedNodeIndices
          (SankeyChart.topLinks (API.aggregateForSankey data sortBy).links))
        (API.aggregateForSankey data sortBy).nodes 0 ([], []) hkeys0 fn hfn with
      hnil | ⟨i, _, hiu, hlook⟩
    · simp at hnil
    · obtain ⟨tl, htl, hend⟩ := (mem_used_iff _ i).mp hiu
      have htlL : tl ∈ (API.aggregateForSankey data sortBy).links := topLinks_subset _ tl htl
      obtain ⟨i1, j1, hs, ht, hi1, hj1⟩ := links_endpoints data sortBy tl htlL
      have hsSome := rebuildAux_nm_total
        (SankeyChart.usedNodeIndices
          (SankeyChart.topLinks (API.aggregateForSankey data sortBy).links))
        (API.aggregateForSankey data sortBy).nodes 0 ([], []) hkeys0 i1 (by omega)
        (by simpa using hi1) ((mem_used_iff _ i1).mpr ⟨tl, htl, Or.inl hs⟩)
      have htSome := rebuildAux_nm_total
        (SankeyChart.usedNodeIndices
          (SankeyChart.topLinks (API.aggregateForSankey data sortBy).links))
        (API.aggregateForSankey data sortBy).nodes 0 ([], []) hkeys0 j1 (by omega)
        (by simpa using hj1) ((mem_used_iff _ j1).mpr ⟨tl, htl, Or.inr ht⟩)
      obtain ⟨a1, ha1⟩ := Option.isSome_iff_exists.mp hsSome
      obtain ⟨b1, hb1⟩ := Option.isSome_iff_exists.mp htSome
      refine ⟨{ tl with
          source := tl.source.bind (fun i => jsGet (SankeyChart.rebuildAux
            (SankeyChart.usedNodeIndices
              (SankeyChart.topLinks (API.aggregateForSankey data sortBy).links))
            (API.aggregateForSankey data sortBy).nodes 0 ([], [])).1 i)
          target := tl.target.bind (fun i => jsGet (SankeyChart.rebuildAux
            (SankeyChart.usedNodeIndices
              (SankeyChart.topLinks (API.aggregateForSankey data sortBy).links))
            (API.aggregateForSankey data sortBy).nodes 0 ([], [])).1 i) }, ?_, ?_⟩
      · rw [SankeyChart.remapLinks]
        apply List.mem_filter.mpr
        refine ⟨List.mem_map.mpr ⟨tl, htl, rfl⟩, ?_⟩
        rw [hs, ht]
        simp [ha1, hb1]
      · rcases hend with h | h
        · left
          have hii : i1 = i := by
            rw [h] at hs
            exact (Option.some.inj hs).symm
          subst hii
          rw [hs]
          simpa using hlook
        · right
          have hjj : j1 = i := by
            rw [h] at ht
            exact (Option.some.inj ht).symm
          subst hjj
          rw [ht]
          simpa using hlook

theorem matchesSearch_eq_case (q : String) (hq : ¬ q = "") (f : Option String) :
    Utils.matchesSearch f q =
      (match f with
       | none => false
       | some s => !(s = "") && strIncludes (jsToLower s) (jsToLower q)) := by
  cases f with
  | none => simp [Utils.matchesSearch, hq]
  | some s =>
    by_cases hs : s = "" <;> simp [Utils.matchesSearch, hq, hs]

theorem searchPred_eq_any_matches (q : String) (hq : ¬ q = "") (r : Record) :
    Filters.searchPred (jsToLower q) r =
      ([r.vendor_name, r.agency_name, r.short_title, some r.additional_info].any
        (fun f => Utils.matchesSearch f q)) := by
  simp only [Filters.searchPred, List.any_cons, List.any_nil,
    matchesSearch_eq_case q hq]

theorem vendorStage_nil (st : FilterState) : Filters.vendorStage st [] = [] := by
  unfold Filters.vendorStage
  split <;> simp

theorem agencyStage_nil (st : FilterState) : Filters.agencyStage st [] = [] := by
  unfold Filters.agencyStage
  split <;> simp

theorem sortData_nil (st : FilterState) : Filters.sortData st [] = [] := rfl

/-- C7: with an empty query the search stage is a pass-through (the pipeline
reduces to the other filters plus the sort); with a non-empty query a record
survives the search stage iff it was in the input and one of vendor name,
agency name, short title, or the derived additional-info field matches the
query case-insensitively (absent or empty fields never match); and a
non-empty query matching no field of any record empties the whole pipeline. -/
theorem search_filter_spec (st : FilterState) (data : List Record) :
    (st.searchQuery = "" →
      Filters.applyFilters st data =
        Filters.sortData st (Filters.agencyStage st (Filters.vendorStage st data))) ∧
    (¬ st.searchQuery = "" → ∀ r : Record,
      (r ∈ Filters.searchStage st data ↔ r ∈ data ∧
        ([r.vendor_name, r.agency_name, r.short_title, some r.additional_info].any
          (fun f => Utils.matchesSearch f st.searchQuery)) = true)) ∧
    (¬ st.searchQuery = "" →
      (∀ r ∈ data,
        ([r.vendor_name, r.agency_name, r.short_title, some r.additional_info].any
          (fun f => Utils.matchesSearch f st.searchQuery)) = false) →
      Filters.applyFilters st data = []) := by
  refine ⟨?_, ?_, ?_⟩
  · intro hq
    unfold Filters.applyFilters Filters.searchStage
    rw [if_pos hq]
  · intro hq r
    unfold Filters.searchStage
    rw [if_neg hq]
    rw [List.mem_filter, searchPred_eq_any_matches st.searchQuery hq r]
  · intro hq hnone
    have hs : Filters.searchStage st data = [] := by
      unfold Filters.searchStage
      rw [if_neg hq]
      apply List.filter_eq_nil.mpr
      intro a ha
      rw [searchPred_eq_any_matches st.searchQuery hq a, hnone a ha]
      simp
    rw [Filters.applyFilters, hs, vendorStage_nil, agencyStage_nil, sortData_nil]

theorem search_filter_spec_witness :
    Filters.applyFilters stMiss data9 = [] :=
  (search_filter_spec stMiss data9).2.2 (by decide) (by decide)

/-- C8 (amended): normalization and aggregation never fail and substitute
safe defaults — an absent or unparseable `contract_amount` becomes `0`, and
the normalized amount is non-negative provided every value `parseFloat`
extracts is non-negative (the code does not reject negative literals, so
unconditional non-negativity fails; see the counterexample); a record with
absent `vendor_name`/`agency_name` is bucketed under "Unknown Vendor" /
"Unknown Agency" and contributes to the rollup totals under those labels. -/
theorem safe_defaults (raw : RawRecord) (data : List Record) (r : Record) :
    (raw.contract_amount = none → (API.processRecord raw).contract_amount = 0) ∧
    (∀ s, raw.contract_amount = some s → jsParseFloat s = none →
      (API.processRecord raw).contract_amount = 0) ∧
    ((∀ s q, raw.contract_amount = some s → jsParseFloat s = some q → 0 ≤ q) →
      0 ≤ (API.processRecord raw).contract_amount) ∧
    (r ∈ data → r.vendor_name = none →
      vendorOf r = "Unknown Vendor" ∧
      jsGet (matrixAccum data).vtm "Unknown Vendor"
        = some (((data.filter (fun x => vendorOf x = "Unknown Vendor")).map amountOf).sum) ∧
      r ∈ data.filter (fun x => vendorOf x = "Unknown Vendor")) ∧
    (r ∈ data → r.agency_name = none →
      agencyOf r = "Unknown Agency" ∧
      jsGet (matrixAccum data).agm "Unknown Agency"
        = some (((data.filter (fun x => agencyOf x = "Unknown Agency")).map amountOf).sum) ∧
      r ∈ data.filter (fun x => agencyOf x = "Unknown Agency")) := by
  refine ⟨?_, ?_, ?_, ?_, ?_⟩
  · intro h
    simp [API.processRecord, jsToNumber, h]
  · intro s hs hp
    simp [API.processRecord, jsToNumber, hs, hp]
  · intro h
    show 0 ≤ jsToNumber raw.contract_amount
    cases hc : raw.contract_amount with
    | none => simp [jsToNumber]
    | some s =>
      cases hp : jsParseFloat s with
      | none => simp [jsToNumber, hp]
      | some q =>
        have := h s q hc hp
        simpa [jsToNumber, hp] using this
  · intro hr hv
    have hname : vendorOf r = "Unknown Vendor" := by
      rw [vendorOf, hv]
      rfl
    have hmem : "Unknown Vendor" ∈ data.map vendorOf := by
      rw [← hname]
      exact List.mem_map_of_mem vendorOf hr
    refine ⟨hname, ?_, ?_⟩
    · rw [jsGet_vtm, if_pos hmem]
    · exact List.mem_filter.mpr ⟨hr, by simp [hname]⟩
  · intro hr ha
    have hname : agencyOf r = "Unknown Agency" := by
      rw [agencyOf, ha]
      rfl
    have hmem : "Unknown Agency" ∈ data.map agencyOf := by
      rw [← hname]
      exact List.mem_map_of_mem agencyOf hr
    refine ⟨hname, ?_, ?_⟩
    · rw [jsGet_agm, if_pos hmem]
    · exact List.mem_filter.mpr ⟨hr, by simp [hname]⟩

theorem safe_defaults_witness :
    (API.processRecord rawEmpty).contract_amount = 0 ∧
    0 ≤ (API.processRecord rawEmpty).contract_amount ∧
    vendorOf (API.processRecord rawEmpty) = "Unknown Vendor" ∧
    agencyOf (API.processRecord rawEmpty) = "Unknown Agency" := by
  have h := safe_defaults rawEmpty [API.processRecord rawEmpty]
    (API.processRecord rawEmpty)
  refine ⟨h.1 rfl, h.2.2.1 ?_, (h.2.2.2.1 (by simp) rfl).1, (h.2.2.2.2 (by simp) rfl).1⟩
  intro s q hs hq
  rw [show rawEmpty.contract_amount = none from rfl] at hs
  exact absurd hs (by simp)

theorem getD_append_lt {α : Type} (l l' : List α) (d : α) (r : Nat) (h : r < l.length) :
    (l ++ l').getD r d = l.getD r d := by
  induction l generalizing r with
  | nil => exact absurd h (by simp)
  | cons a t ih =>
    cases r with
    | zero => rfl
    | succ n =>
      have hn : n < t.length := by simpa using h
      simpa [List.getD_cons_succ] using ih n hn

theorem getD_append_self {α : Type} (l : List α) (x : α) (d : α) :
    (l ++ [x]).getD l.length d = x := by
  induction l with
  | nil => rfl
  | cons a t ih =>
    rw [List.cons_append, List.length_cons, List.getD_cons_succ]
    exact ih

theorem set_append_self {α : Type} (l : List α) (x v : α) :
    (l ++ [x]).set l.length v = l ++ [v] := by
  induction l with
  | nil => rfl
  | cons a t ih =>
    rw [List.cons_append, List.length_cons, List.set_cons_succ, ih, List.cons_append]

theorem spreadCopy_pres (σ : JSHeap) (d r : Nat) (h : r < σ.arrays.length) :
    ((spreadCopy σ d).1).read r = σ.read r := by
  unfold spreadCopy JSHeap.alloc JSHeap.read
  exact getD_append_lt _ _ _ _ h

theorem spreadCopy_len (σ : JSHeap) (d : Nat) :
    σ.arrays.length ≤ ((spreadCopy σ d).1).arrays.length := by
  simp [spreadCopy, JSHeap.alloc]

theorem spreadCopy_read (σ : JSHeap) (d : Nat) :
    ((spreadCopy σ d).1).read (spreadCopy σ d).2 = σ.read d := by
  unfold spreadCopy JSHeap.alloc JSHeap.read
  exact getD_append_self _ _ _

theorem filterOp_pres (σ : JSHeap) (d : Nat) (p : Record → Bool) (r : Nat)
    (h : r < σ.arrays.length) : ((filterOp σ d p).1).read r = σ.read r := by
  unfold filterOp JSHeap.alloc JSHeap.read
  exact getD_append_lt _ _ _ _ h

theorem filterOp_len (σ : JSHeap) (d : Nat) (p : Record → Bool) :
    σ.arrays.length ≤ ((filterOp σ d p).1).arrays.length := by
  simp [filterOp, JSHeap.alloc]

theorem filterOp_read (σ : JSHeap) (d : Nat) (p : Record → Bool) :
    ((filterOp σ d p).1).read (filterOp σ d p).2 = (σ.read d).filter p := by
  unfold filterOp JSHeap.alloc JSHeap.read
  exact getD_append_self _ _ _

theorem sortDataH_repr (st : FilterState) (σ : JSHeap) (d : Nat) :
    Filters.sortDataH st σ d =
      (⟨σ.arrays ++ [(σ.read d).insertionSort
          (Filters.recLe (sortField st.sortBy) (multiplier st.sortBy))]⟩,
        σ.arrays.length) := by
  unfold Filters.sortDataH spreadCopy JSHeap.alloc sortOp JSHeap.write JSHeap.read
  dsimp only
  rw [getD_append_self, set_append_self]

theorem sortDataH_pres (st : FilterState) (σ : JSHeap) (d r : Nat)
    (h : r < σ.arrays.length) : ((Filters.sortDataH st σ d).1).read r = σ.read r := by
  rw [sortDataH_repr]
  exact getD_append_lt _ _ _ _ h

theorem sortDataH_read (st : FilterState) (σ : JSHeap) (d : Nat) :
    ((Filters.sortDataH st σ d).1).read (Filters.sortDataH st σ d).2
      = Filters.sortData st (σ.read d) := by
  rw [sortDataH_repr]
  exact getD_append_self _ _ _

theorem stage2_repr (st : FilterState) (σ : JSHeap) (d : Nat) :
    Filters.stage2 st σ d =
      (if st.searchQuery = "" then spreadCopy σ d
       else filterOp (spreadCopy σ d).1 (spreadCopy σ d).2
         (Filters.searchPred (jsToLower st.searchQuery))) := rfl

theorem stage2_pres (st : FilterState) (σ : JSHeap) (d r : Nat)
    (h : r < σ.arrays.length) : ((Filters.stage2 st σ d).1).read r = σ.read r := by
  rw [stage2_repr]
  split
  · exact spreadCopy_pres σ d r h
  · rw [filterOp_pres _ _ _ r (lt_of_lt_of_le h (spreadCopy_len σ d))]
    exact spreadCopy_pres σ d r h

theorem stage2_len (st : FilterState) (σ : JSHeap) (d : Nat) :
    σ.arrays.length ≤ ((Filters.stage2 st σ d).1).arrays.length := by
  rw [stage2_repr]
  split
  · exact spreadCopy_len σ d
  · exact le_trans (spreadCopy_len σ d) (filterOp_len _ _ _)

theorem stage2_read (st : FilterState) (σ : JSHeap) (d : Nat) :
    ((Filters.stage2 st σ d).1).read (Filters.stage2 st σ d).2
      = Filters.searchStage st (σ.read d) := by
  rw [stage2_repr]
  unfold Filters.searchStage
  split
  · exact spreadCopy_read σ d
  · rw [filterOp_read, spreadCopy_read]

theorem stage3_repr (st : FilterState) (σ : JSHeap) (d : Nat) :
    Filters.stage3 st σ d =
      (if st.selectedVendors = [] then Filters.stage2 st σ d
       else filterOp (Filters.stage2 st σ d).1 (Filters.stage2 st σ d).2
         (fun r =>
           match r.vendor_name with
           | some v => st.selectedVendors.contains v
           | none => false)) := rfl

theorem stage3_pres (st : FilterState) (σ : JSHeap) (d r : Nat)
    (h : r < σ.arrays.length) : ((Filters.stage3 st σ d).1).read r = σ.read r := by
  rw [stage3_repr]
  split
  · exact stage2_pres st σ d r h
  · rw [filterOp_pres _ _ _ r (lt_of_lt_of_le h (stage2_len st σ d))]
    exact stage2_pres st σ d r h

theorem stage3_len (st : FilterState) (σ : JSHeap) (d : Nat) :
    σ.arrays.length ≤ ((Filters.stage3 st σ d).1).arrays.length := by
  rw [stage3_repr]
  split
  · exact stage2_len st σ d
  · exact le_trans (stage2_len st σ d) (filterOp_len _ _ _)

theorem stage3_read (st : FilterState) (σ : JSHeap) (d : Nat) :
    ((Filters.stage3 st σ d).1).read (Filters.stage3 st σ d).2
      = Filters.vendorStage st (Filters.searchStage st (σ.read d)) := by
  rw [stage3_repr]
  unfold Filters.vendorStage
  split
  · exact stage2_read st σ d
  · rw [filterOp_read, stage2_read]

theorem stage4_repr (st : FilterState) (σ : JSHeap) (d : Nat) :
    Filters.stage4 st σ d =
      (if st.selectedAgencies = [] then Filters.stage3 st σ d
       else filterOp (Filters.stage3 st σ d).1 (Filters.stage3 st σ d).2
         (fun r =>
           match r.agency_name with
           | some a => st.selectedAgencies.contains a
           | none => false)) := rfl

theorem stage4_pres (st : FilterState) (σ : JSHeap) (d r : Nat)
    (h : r < σ.arrays.length) : ((Filters.stage4 st σ d).1).read r = σ.read r := by
  rw [stage4_repr]
  split
  · exact stage3_pres st σ d r h
  · rw [filterOp_pres _ _ _ r (lt_of_lt_of_le h (stage3_len st σ d))]
    exact stage3_pres st σ d r h

theorem stage4_len (st : FilterState) (σ : JSHeap) (d : Nat) :
    σ.arrays.length ≤ ((Filters.stage4 st σ d).1).arrays.length := by
  rw [stage4_repr]
  split
  · exact stage3_len st σ d
  · exact le_trans (stage3_len st σ d) (filterOp_len _ _ _)

theorem stage4_read (st : FilterState) (σ : JSHeap) (d : Nat) :
    ((Filters.stage4 st σ d).1).read (Filters.stage4 st σ d).2
      = Filters.agencyStage st
          (Filters.vendorStage st (Filters.searchStage st (σ.read d))) := by
  rw [stage4_repr]
  unfold Filters.agencyStage
  split
  · exact stage3_read st σ d
  · rw [filterOp_read, stage3_read]

theorem applyFiltersH_repr (st : FilterState) (σ : JSHeap) (d : Nat) :
    Filters.applyFiltersH st σ d =
      Filters.sortDataH st (Filters.stage4 st σ d).1 (Filters.stage4 st σ d).2 := rfl

/-- C10: the heap-level filter pipeline never mutates any array the caller
already holds — every reference live before the call reads the same record
list afterwards (both for `applyFilters` and for `sortData`, which operate
on fresh spread copies), and the returned reference holds exactly the pure
filtered/sorted result. -/
theorem no_input_mutation (st : FilterState) (σ : JSHeap) (dataRef : Nat) :
    (∀ r, r < σ.arrays.length →
      ((Filters.applyFiltersH st σ dataRef).1).read r = σ.read r) ∧
    ((Filters.applyFiltersH st σ dataRef).1).read (Filters.applyFiltersH st σ dataRef).2
      = Filters.applyFilters st (σ.read dataRef) ∧
    (∀ r, r < σ.arrays.length →
      ((Filters.sortDataH st σ dataRef).1).read r = σ.read r) ∧
    ((Filters.sortDataH st σ dataRef).1).read (Filters.sortDataH st σ dataRef).2
      = Filters.sortData st (σ.read dataRef) := by
  refine ⟨?_, ?_, ?_, ?_⟩
  · intro r h
    rw [applyFiltersH_repr]
    rw [sortDataH_pres st _ _ r (lt_of_lt_of_le h (stage4_len st σ dataRef))]
    exact stage4_pres st σ dataRef r h
  · rw [applyFiltersH_repr, sortDataH_read, stage4_read]
    rfl
  · intro r h
    exact sortDataH_pres st σ dataRef r h
  · exact sortDataH_read st σ dataRef

theorem no_input_mutation_witness :
    ((Filters.applyFiltersH stNone heap9 0).1).read 0 = data9 ∧
    ((Filters.applyFiltersH stNone heap9 0).1).read (Filters.applyFiltersH stNone heap9 0).2
      = Filters.applyFilters stNone data9 := by
  have h := no_input_mutation stNone heap9 0
  exact ⟨(h.1 0 (by decide)).trans (by decide), h.2.1⟩

theorem sankey_matrix_agree_witness :
    ((vendorNodesOf (API.aggregateForSankey data9 "amount-desc")).map SNode.name
        = (API.aggregateForMatrix data9 "amount-desc").vendors) ∧
    cellAt (API.aggregateForMatrix data9 "amount-desc") 1 1 = some (⟨0, 0⟩ : Cell) := by
  have h := sankey_matrix_agree data9 "amount-desc" (by decide)
  exact ⟨h.1, h.2.2.2.2.2 1 1 "B" "Y" (by decide) (by decide) (by decide)⟩

theorem aggregate_sums_agree_witness :
    linkValueSum (API.aggregateForSankey data9 "amount-desc") = recordAmountSum data9 ∧
    matrixAmountSum (API.aggregateForMatrix data9 "amount-desc") = recordAmountSum data9 :=
  aggregate_sums_agree data9 "amount-desc" (by decide)

theorem windowing_selection_witness :
    (SankeyChart.topLinks (API.aggregateForSankey data51 "amount-desc").links).length ≤ 100 ∧
    (some 1 : Option Rat).getD 0 ≤ ((⟨"V0", some 1, 0⟩ : EntityRow).total.getD 0) := by
  have h := windowing_selection data51 "amount-desc"
  exact ⟨h.1, h.2.2.1 ⟨"V0", some 1, 0⟩ (by decide) 50 (some 1) (by decide) (by decide)⟩

theorem totals_unwindowed_witness :
    ((App.headerStats stNone data9).1 = (Filters.applyFilters stNone data9).length) ∧
    ((⟨"A", some 150, 0⟩ : EntityRow).total
      = some ((((Filters.applyFilters stNone data9).filter
          (fun r => vendorOf r = "A")).map amountOf).sum)) ∧
    MatrixChart.grandTotalOf
        (API.aggregateForMatrix (Filters.applyFilters stNone data9) stNone.sortBy)
      = recordAmountSum (Filters.applyFilters stNone data9) := by
  have h := totals_unwindowed stNone data9 (by decide)
  exact ⟨h.1.1, h.2.1 ⟨"A", some 150, 0⟩ (by decide), h.2.2.2⟩

theorem fetchAll_bounds_witness :
    (API.fetchAll pageAtFull).length ≤ 110000 :=
  (fetchAll_bounds pageAtFull
    (by intro o; simp only [pageAtFull, List.length_replicate]; exact Nat.le_refl 10000)).1
